import Mathlib

/-!
Verification development for the declarative flag/argument binding engine of
the `ecobra-go` repository (package `bflags`).

The Go source is embedded shallowly: pure functions become Lean functions,
in-place mutation of the cobra command's flag set becomes explicit state
passing over an association list, and fallible operations return an optional
error.  Machine integers are modelled as `Int`/`Nat` (Go's `strconv` range
checks are made explicit where they matter).  Unicode letter/digit classes of
the Go standard library are modelled by the ASCII classes (all tag tokens in
the claims are ASCII).
-/

namespace Bflags

/-! ### Tag parsing (source: bflags binder file, `splitString`, `parseTag`,
`isValidTag`, `parseFieldTag`, `tagOptions.At`) -/

/-- Go `strings.Trim(s, " ")`: remove leading and trailing space characters. -/
def trimSpaces (s : String) : String :=
  String.mk (((s.toList.dropWhile (· = ' ')).reverse.dropWhile (· = ' ')).reverse)

/-- Comma split of a character list; the empty list yields one empty piece,
matching Go `strings.Split(s, ",")`. -/
def splitCommaChars : List Char → List (List Char)
  | [] => [[]]
  | c :: cs =>
    let r := splitCommaChars cs
    if c = ',' then [] :: r
    else
      match r with
      | [] => [[c]]
      | p :: ps => (c :: p) :: ps

/-- Go `strings.Split(s, ",")`. -/
def splitOnComma (s : String) : List String :=
  (splitCommaChars s.toList).map String.mk

/-- Go `splitString`: split on commas and trim each piece. -/
def splitString (s : String) : List String :=
  (splitOnComma s).map trimSpaces

/-- Go `parseTag`: split a struct field's cmd tag into its type and
comma-separated options (`tag[:idx]`, `splitString(tag[idx+1:])`). -/
def parseTag (tag : String) : String × List String :=
  match splitOnComma tag with
  | [] => (tag, [])
  | [_] => (tag, [])
  | k :: rest => (k, rest.map trimSpaces)

/-- Go `tagOptions.At`: the i-th option or the empty string when out of range. -/
def optAt (opts : List String) (i : Nat) : String :=
  opts.getD i ""

/-- The punctuation characters a tag name may contain
(Go source string of `isValidTag`; braces escaped). -/
def tagPunct : List Char := "!#$%&()*+-./:<=>?@[]^_\x7b|\x7d~ ".toList

/-- Go `isValidTag`: non-empty and every character a letter, a digit or an
allowed punctuation character. -/
def isValidTag (s : String) : Bool :=
  s ≠ "" && s.toList.all (fun c => tagPunct.contains c || c.isAlpha || c.isDigit)

/-- Decimal digit run to a number; `none` when empty or not all digits
(Go `strconv` digit scan). -/
def digitsToNat (cs : List Char) : Option Nat :=
  if cs = [] then none
  else if cs.all Char.isDigit then
    some (cs.foldl (fun a c => a * 10 + (c.toNat - 48)) 0)
  else none

/-- Go `strconv.Atoi` = `strconv.ParseInt(s, 10, 0)` on a 64-bit platform:
optional sign, decimal digits, 64-bit signed range. -/
def goAtoi (s : String) : Option Int :=
  let core : Bool → List Char → Option Int := fun neg cs =>
    match digitsToNat cs with
    | none => none
    | some n =>
      if neg then (if n ≤ 2 ^ 63 then some (-(n : Int)) else none)
      else (if n < 2 ^ 63 then some (n : Int) else none)
  match s.toList with
  | '+' :: cs => core false cs
  | '-' :: cs => core true cs
  | cs => core false cs

/-- Go `strconv.ParseBool`: the canonical true/false token set. -/
def goParseBool (s : String) : Option Bool :=
  if s = "1" ∨ s = "t" ∨ s = "T" ∨ s = "TRUE" ∨ s = "true" ∨ s = "True" then
    some true
  else if s = "0" ∨ s = "f" ∨ s = "F" ∨ s = "FALSE" ∨ s = "false" ∨ s = "False" then
    some false
  else none

/-- A parsed `cmd` tag: the source's `argSpec` / `flagSpec` variants behind the
`cmdSpec` interface. -/
inductive CmdSpec where
  | arg (name description : String) (order : Int) (annots : List String)
  | flag (name description shorthand : String)
      (persistent required hidden : Bool) (annots : List String)
deriving DecidableEq, Repr

/-- Go `cmdSpec.getName`. -/
def CmdSpec.getName : CmdSpec → String
  | .arg n _ _ _ => n
  | .flag n _ _ _ _ _ _ => n

/-- The slice of `reflect.StructField` that `parseFieldTag` consumes:
field name, raw `cmd` tag, raw `meta` tag. -/
structure SField where
  name : String
  cmdTag : String
  metaTag : String
deriving DecidableEq, Repr

/-- The `kind` local of `parseFieldTag`: the raw kind token, demoted to the
empty string when it fails tag validation. -/
def tagKind (tag : String) : String :=
  if isValidTag (parseTag tag).1 then (parseTag tag).1 else ""

/-- Go `parseFieldTag`: parse the `cmd` tag of a struct field into a spec, or
`none` for "no binding". -/
def parseFieldTag (sf : SField) : Option CmdSpec :=
  let tag := sf.cmdTag
  if tag = "-" ∨ tag = "" then none
  else
    let kind := tagKind tag
    let opts := (parseTag tag).2
    let name0 := optAt opts 0
    let description := optAt opts 1
    let name := if name0 = "" then sf.name else name0
    let annot := trimSpaces sf.metaTag
    let annots := if annot ≠ "" then splitString annot else []
    if kind = "" ∨ kind = "arg" then
      let order := (goAtoi (optAt opts 2)).getD (-1)
      some (.arg name description order annots)
    else if kind = "flag" then
      some (.flag name description (optAt opts 2)
        ((goParseBool (optAt opts 3)).getD false)
        ((goParseBool (optAt opts 4)).getD false)
        ((goParseBool (optAt opts 5)).getD false)
        annots)
    else none

/-! ### Settable value handles

`str` and `strSlice` model the external pflag string handles that
`CmdFlags.makeFlag` registers for `string` / `[]string` fields; per the spec's
slice command-line grammar a slice token is split on commas, each element kept
in original order, and a second `Set` appends (pflag's `changed` bit).  The
four pointer handles are the repository's own `ptrBoolValue`, `ptrIntValue`,
`ptrInt64Value` and `ptrStringValue` from the flags source file. -/

/-- Errors of the modelled operations. -/
inductive Err where
  | mixedOrder (name : String) (order : Int)
  | invalidOrder (order : Int)
  | duplicateOrder (order : Int)
  | notExist (name : String)
  | parseFail (s : String)
  | setNotSupported
  | nilDeref
deriving DecidableEq, Repr

/-- Comma split of a slice token (spec slice grammar; pflag `readAsCSV` on
quote-free input). -/
def splitCSV (s : String) : List String :=
  splitOnComma s

/-- Byte/codepoint lexicographic string comparison (Go `<` on strings;
identical on the ASCII names the claims use). -/
def charsLt : List Char → List Char → Bool
  | [], [] => false
  | [], _ :: _ => true
  | _ :: _, [] => false
  | a :: as, b :: bs => if a = b then charsLt as bs else decide (a < b)

/-- Go string `<`. -/
def strLt (s t : String) : Bool :=
  charsLt s.toList t.toList

/-- Go `strings.HasSuffix`. -/
def strEndsWith (s suf : String) : Bool :=
  (s.toList.reverse.take suf.toList.length) == suf.toList.reverse

/-- Source `ptrBoolValue.Set`: parse, assign only when no error, return the
error. -/
def ptrBoolValueSet (p : Option Bool) (s : String) : Option Bool × Option Err :=
  match goParseBool s with
  | some v => (some v, none)
  | none => (p, some (.parseFail s))

/-- Source `ptrIntValue.Set`: `strconv.ParseInt(s, 10, 0)`, assign only when no
error. -/
def ptrIntValueSet (p : Option Int) (s : String) : Option Int × Option Err :=
  match goAtoi s with
  | some v => (some v, none)
  | none => (p, some (.parseFail s))

/-- Source `ptrInt64Value.Set`: same parse, assign only when no error. -/
def ptrInt64ValueSet (p : Option Int) (s : String) : Option Int × Option Err :=
  match goAtoi s with
  | some v => (some v, none)
  | none => (p, some (.parseFail s))

/-- Source `ptrStringValue.Set`: always assigns. -/
def ptrStringValueSet (_ : Option String) (s : String) : Option String × Option Err :=
  (some s, none)

/-- A settable flag value handle together with its current contents. -/
inductive FVal where
  | str (s : String)
  | strSlice (changed : Bool) (xs : List String)
  | ptrBool (p : Option Bool)
  | ptrInt (p : Option Int)
  | ptrInt64 (p : Option Int)
  | ptrString (p : Option String)
deriving DecidableEq, Repr

/-- The pflag `Value.Type()` string of each handle (the pointer handles return
the strings of the source's `Type()` methods). -/
def FVal.typeName : FVal → String
  | .str _ => "string"
  | .strSlice _ _ => "stringSlice"
  | .ptrBool _ => "bool"
  | .ptrInt _ => "int"
  | .ptrInt64 _ => "int64"
  | .ptrString _ => "string"

/-- `Set` on a handle: new contents and optional error. -/
def FVal.set : FVal → String → FVal × Option Err
  | .str _, s => (.str s, none)
  | .strSlice changed xs, s =>
      (.strSlice true (if changed then xs ++ splitCSV s else splitCSV s), none)
  | .ptrBool p, s => let r := ptrBoolValueSet p s; (.ptrBool r.1, r.2)
  | .ptrInt p, s => let r := ptrIntValueSet p s; (.ptrInt r.1, r.2)
  | .ptrInt64 p, s => let r := ptrInt64ValueSet p s; (.ptrInt64 r.1, r.2)
  | .ptrString p, s => let r := ptrStringValueSet p s; (.ptrString r.1, r.2)

/-! ### Flag bonds, the command's flag set, bind -/

/-- Source `FlagBond` (the fields the model needs; `value` is the bound
storage the pflag handle aliases). -/
structure FlagBond where
  isArg : Bool := false
  name : String := ""
  shorthand : String := ""
  value : FVal := .str ""
  usage : String := ""
  required : Bool := false
  persistent : Bool := false
  hidden : Bool := false
  argOrder : Int := -1
  annots : List String := []
deriving DecidableEq, Repr

instance : Inhabited FlagBond := ⟨{}⟩

/-- A pflag entry value on the command: a real handle or one of the three
hidden bookkeeping values (`CmdFlags`, `ArgSet`, `inputValue`).  The input is
an opaque reference (`none` models a nil input). -/
inductive PVal where
  | handle (v : FVal)
  | flagsetV (m : List (String × FlagBond))
  | argsetV (l : List (Option FlagBond))
  | inputV (v : Option Nat)
deriving DecidableEq, Repr

/-- The pflag `Value.Type()` string of an entry. -/
def PVal.typeName : PVal → String
  | .handle v => v.typeName
  | .flagsetV _ => "$flagset"
  | .argsetV _ => "$argset"
  | .inputV _ => "$input"

/-- `Set` on an entry: the bookkeeping values reject `Set` (as in the source). -/
def PVal.set : PVal → String → PVal × Option Err
  | .handle v, s => let r := v.set s; (.handle r.1, r.2)
  | p, _ => (p, some .setNotSupported)

/-- Source `isSliceValue`: the pflag value's type string ends with "Slice". -/
def isSliceValue (p : PVal) : Bool :=
  strEndsWith p.typeName "Slice"

/-- A cobra command node: its flag set, as the ordered list of registered
pflag entries (pflag refuses duplicate registrations, so lookup by first
match agrees with its map). -/
structure Cmd where
  flags : List (String × PVal)
deriving DecidableEq, Repr

/-- pflag `FlagSet.Lookup` (first match). -/
def lookupFlag (fl : List (String × PVal)) (n : String) : Option PVal :=
  match fl with
  | [] => none
  | e :: rest => if e.1 = n then some e.2 else lookupFlag rest n

/-- Replace the contents of the entry named `n` (mutation through the shared
handle in Go). -/
def updateFlag (fl : List (String × PVal)) (n : String) (v : PVal) :
    List (String × PVal) :=
  match fl with
  | [] => []
  | e :: rest => if e.1 = n then (e.1, v) :: rest else e :: updateFlag rest n v

/-- Source `CmdFlags.configureFlag` restricted to the modelled handles: it
registers the bond's value as a pflag entry under the bond's name.  (Required,
hidden and shorthand configure cobra metadata not represented in the state;
with the modelled value kinds `makeFlag` never fails.) -/
def configureFlag (cmd : Cmd) (fb : FlagBond) : Cmd :=
  ⟨cmd.flags ++ [(fb.name, .handle fb.value)]⟩

/-- Source `CmdFlags.ConfigureCmd`: configure every flag, then store the flag
registry itself on the command under the hidden `$flagset` name
(`setCmdFlagSet`). -/
def configureCmd (cmd : Cmd) (flagList : List FlagBond) : Cmd :=
  let c := flagList.foldl configureFlag cmd
  ⟨c.flags ++ [("$flagset", .flagsetV (flagList.map (fun fb => (fb.name, fb))))]⟩

/-- The mixed-order check of `flagsBinder.bind`: every later arg must agree
with the first arg on whether it carries an explicit (`≥ 0`) order. -/
def checkMixed (argFlags : List FlagBond) : Option Err :=
  match argFlags with
  | [] => none
  | fb0 :: rest =>
    let hasOrder : Bool := decide (0 ≤ fb0.argOrder)
    match rest.find? (fun fb => decide (0 ≤ fb.argOrder) != hasOrder) with
    | some fb => some (.mixedOrder fb.name fb.argOrder)
    | none => none

/-- The arg-configuration loop of `flagsBinder.bind`: hide each arg bond,
register it as a flag, and place it in the `argf` array — at its declared
order when explicit (range and duplicate checked), else at its declaration
position. -/
def bindArgsLoop (n : Nat) :
    Nat → List FlagBond → Cmd → List (Option FlagBond) →
    Cmd × List (Option FlagBond) × Option Err
  | _, [], cmd, argf => (cmd, argf, none)
  | i, fb :: rest, cmd, argf =>
    let fb := { fb with hidden := true }
    let cmd := configureFlag cmd fb
    if 0 ≤ fb.argOrder then
      if (n : Int) ≤ fb.argOrder then (cmd, argf, some (.invalidOrder fb.argOrder))
      else if (argf.getD fb.argOrder.toNat none).isSome then
        (cmd, argf, some (.duplicateOrder fb.argOrder))
      else bindArgsLoop n (i + 1) rest cmd (argf.set fb.argOrder.toNat (some fb))
    else bindArgsLoop n (i + 1) rest cmd (argf.set i (some fb))

/-- Source `flagsBinder.bind` after field collection: configure the flags,
validate and configure the args, then install the arg set (`setCmdArgSet`)
and the input (`setCmdInput`).  The command state is returned together with
the optional error, mirroring in-place mutation. -/
def bindGo (cmd : Cmd) (flagList argFlags : List FlagBond) (v : Option Nat) :
    Cmd × Option Err :=
  let cmd := configureCmd cmd flagList
  match checkMixed argFlags with
  | some e => (cmd, some e)
  | none =>
    match bindArgsLoop argFlags.length 0 argFlags cmd
        (List.replicate argFlags.length none) with
    | (cmd, _, some e) => (cmd, some e)
    | (cmd, argf, none) =>
      let cmd : Cmd := ⟨cmd.flags ++ [("$argset", .argsetV argf)]⟩
      let cmd : Cmd := ⟨cmd.flags ++ [("$input", .inputV v)]⟩
      (cmd, none)

/-- Source `BindCustom` on a nil input value: store nil as the command input
(`setCmdInput(c, nil)`) and return no error, registering nothing else. -/
def bindCustomNil (cmd : Cmd) : Cmd × Option Err :=
  (⟨cmd.flags ++ [("$input", .inputV none)]⟩, none)

/-- Source `GetCmdInput`: look the hidden input entry up. -/
def getCmdInput (cmd : Cmd) : Option (Option Nat) :=
  match lookupFlag cmd.flags "$input" with
  | some (.inputV v) => some v
  | _ => none

/-! ### SetArgs (token application) -/

/-- The token loop of `SetArgs`: token `i` is applied to the `i`-th arg bond
(looked up among the command's flags by name); empty tokens leave the default;
the last declared slot joins the remaining tokens with commas when its handle
is a slice and more tokens remain than declared slots; tokens beyond the
declared slots are ignored.  A nil slot (`Go` nil pointer dereference) is
surfaced as `nilDeref`. -/
def saLoop (argBonds : List (Option FlagBond)) (allArgs : List String) :
    Nat → List String → List (String × PVal) →
    List (String × PVal) × Option Err
  | _, [], fl => (fl, none)
  | i, arg :: rest, fl =>
    if i < argBonds.length then
      match argBonds.getD i none with
      | none => (fl, some .nilDeref)
      | some fb =>
        match lookupFlag fl fb.name with
        | none => (fl, some (.notExist fb.name))
        | some pv =>
          if arg = "" then saLoop argBonds allArgs (i + 1) rest fl
          else
            let a2 := if i = argBonds.length - 1 ∧ argBonds.length < allArgs.length
                ∧ isSliceValue pv = true then
              String.intercalate "," (allArgs.drop i)
            else arg
            let r := pv.set a2
            match r.2 with
            | none => saLoop argBonds allArgs (i + 1) rest (updateFlag fl fb.name r.1)
            | some e => (fl, some e)
    else saLoop argBonds allArgs (i + 1) rest fl

/-- Source `SetArgs` (state part): when tokens are present, fetch the stored
arg set and run the token loop over the command's flag entries. -/
def setArgsGo (cmd : Cmd) (args : List String) :
    List (String × PVal) × Option Err :=
  if 0 < args.length then
    match lookupFlag cmd.flags "$argset" with
    | some (.argsetV l) => saLoop l args 0 args cmd.flags
    | _ => (cmd.flags, some (.notExist "$argset"))
  else (cmd.flags, none)

/-! ### Field walker (source `typeFields` and helpers)

Go types are modelled as primitives, pointers and structs; a struct carries a
numeric identity standing for `reflect.Type` identity (the `visited` and
count maps key on it).  Named pointer types (which would keep `ft` un-followed)
are not modelled; `reflect.NumField` on a queued non-struct — a Go panic — is
modelled as a struct with no fields. -/

/-- A struct field signature: name, anonymous (embedded), exported, raw `cmd`
tag, raw `meta` tag. -/
structure GoFieldSig where
  fname : String
  anonymous : Bool
  exported : Bool
  cmdTag : String
  metaTag : String
deriving DecidableEq, Repr

/-- A Go type as the walker sees it. -/
inductive GoTy where
  | prim (name : String)
  | ptrTo (t : GoTy)
  | strukt (id : Nat) (fields : List (GoFieldSig × GoTy))

/-- Identity key of a type (stands for `reflect.Type` map keys). -/
def GoTy.key : GoTy → String
  | .prim n => "p:" ++ n
  | .ptrTo t => "*" ++ t.key
  | .strukt i _ => "s:" ++ toString i

/-- Whether the type is a struct. -/
def GoTy.isStrukt : GoTy → Bool
  | .strukt _ _ => true
  | _ => false

/-- Follow one pointer level (`if Kind == Ptr then Elem`). -/
def GoTy.followPtr : GoTy → GoTy
  | .ptrTo t => t
  | t => t

/-- The fields of a struct type (empty otherwise). -/
def GoTy.fieldsOf : GoTy → List (GoFieldSig × GoTy)
  | .strukt _ fs => fs
  | _ => []

/-- Source `field`: a field found in a struct (queue entries carry no spec). -/
structure FieldRec where
  name : String := ""
  index : List Nat := []
  typ : GoTy := .prim ""
  spec : Option CmdSpec := none

instance : Inhabited FieldRec := ⟨{}⟩

/-- Rename a spec (`cmdSpec.setName`). -/
def CmdSpec.withName (sp : CmdSpec) (n : String) : CmdSpec :=
  match sp with
  | .arg _ d o a => .arg n d o a
  | .flag _ d s p r h a => .flag n d s p r h a

/-- Outcome of scanning one struct field in `typeFields`. -/
inductive ScanRes where
  | skip
  | record (rec : FieldRec)
  | queue (ft : GoTy) (index : List Nat)

/-- The body of the inner field loop of `typeFields`: visibility checks,
tag parse, record-or-queue decision. -/
def scanOne (fIndex : List Nat) (i : Nat) (sig : GoFieldSig) (sty : GoTy) :
    ScanRes :=
  let isUnexported := sig.exported = false
  if (sig.anonymous = true ∧ isUnexported ∧ sty.followPtr.isStrukt = false) ∨
      (sig.anonymous = false ∧ isUnexported) then .skip
  else
    let spec := parseFieldTag ⟨sig.fname, sig.cmdTag, sig.metaTag⟩
    let descendPtrStruct : Bool :=
      match sty with
      | .ptrTo (.strukt _ _) => true
      | _ => false
    if spec = none ∧ sig.anonymous = false ∧ descendPtrStruct = false then .skip
    else
      let index := fIndex ++ [i]
      let ft := sty.followPtr
      match spec with
      | some sp =>
        if sp.getName ≠ "" ∨ sig.anonymous = false ∨ ft.isStrukt = false then
          let sp := if sp.getName = "" then sp.withName sig.fname else sp
          .record { name := sp.getName, index := index, typ := ft, spec := some sp }
        else .queue ft index
      | none => .queue ft index

/-- Breadth-first traversal state: visited type keys, queue-multiplicity maps
of the current and next level, found fields, next-level queue. -/
structure BfsState where
  visited : List String := []
  count : List (String × Nat) := []
  nextCount : List (String × Nat) := []
  fields : List FieldRec := []
  next : List FieldRec := []

/-- Multiplicity lookup in a count map. -/
def countOf (m : List (String × Nat)) (k : String) : Nat :=
  match m.find? (fun e => e.1 == k) with
  | some e => e.2
  | none => 0

/-- Increment a count map entry. -/
def bumpCount (m : List (String × Nat)) (k : String) : List (String × Nat) :=
  match m with
  | [] => [(k, 1)]
  | e :: rest => if e.1 = k then (e.1, e.2 + 1) :: rest else e :: bumpCount rest k

/-- Process one scanned field of the struct `f.typ` (dup-recording when the
containing type was queued more than once, next-level queueing with
first-queue-only insertion). -/
def processField (f : FieldRec) (st : BfsState) (iv : Nat × (GoFieldSig × GoTy)) :
    BfsState :=
  match scanOne f.index iv.1 iv.2.1 iv.2.2 with
  | .skip => st
  | .record rec =>
    let dup := if 1 < countOf st.count f.typ.key then [rec] else []
    { st with fields := st.fields ++ [rec] ++ dup }
  | .queue ft index =>
    let nc := bumpCount st.nextCount ft.key
    { st with
      nextCount := nc
      next := if countOf nc ft.key = 1 then
          st.next ++ [{ name := "", index := index, typ := ft, spec := none }]
        else st.next }

/-- Process one queue entry: skip already-visited types, else scan its fields. -/
def processEntry (st : BfsState) (f : FieldRec) : BfsState :=
  if f.typ.key ∈ st.visited then st
  else
    let st := { st with visited := st.visited ++ [f.typ.key] }
    (f.typ.fieldsOf.enum).foldl (processField f) st

/-- The outer level loop of `typeFields` (fuelled; the fuel bounds the number
of levels, which the nesting depth of the type bounds). -/
def bfsLoop : Nat → BfsState → List FieldRec → List FieldRec
  | 0, st, _ => st.fields
  | _ + 1, st, [] => st.fields
  | fuel + 1, st, next =>
    let st := { st with count := st.nextCount, nextCount := [], next := [] }
    let st := next.foldl processEntry st
    bfsLoop fuel st st.next

/-- Source `byIndex.Less` on index sequences. -/
def byIndexLess : List Nat → List Nat → Bool
  | [], ys => decide (0 < ys.length)
  | _ :: _, [] => false
  | a :: as, b :: bs => if a ≠ b then decide (a < b) else byIndexLess as bs

/-- The field comparator of `typeFields`: name, then index length, then index
sequence. -/
def fieldLess (x y : FieldRec) : Bool :=
  if x.name ≠ y.name then strLt x.name y.name
  else if x.index.length ≠ y.index.length then
    decide (x.index.length < y.index.length)
  else byIndexLess x.index y.index

/-- Stable insertion relative to `le` (kernel-reducible sort; the comparator
is total and antisymmetric on the walker's fields, where ties are identical
records, so any correct sort realises Go's `sort.Slice`). -/
def insertLe (le : FieldRec → FieldRec → Bool) (a : FieldRec) :
    List FieldRec → List FieldRec
  | [] => [a]
  | b :: bs => if le a b then a :: b :: bs else b :: insertLe le a bs

/-- Insertion sort relative to `le`. -/
def sortLe (le : FieldRec → FieldRec → Bool) : List FieldRec → List FieldRec
  | [] => []
  | a :: as => insertLe le a (sortLe le as)

/-- One pass of the collision-resolution loop: `cur` is the first field of
the current equal-name run and `k` the number of its fields seen so far; at
each run boundary the run's first field is kept exactly when the run has
length one. -/
def annihilateGo (cur : FieldRec) (k : Nat) : List FieldRec → List FieldRec
  | [] => if k = 1 then [cur] else []
  | g :: rest =>
    if g.name == cur.name then annihilateGo cur (k + 1) rest
    else (if k = 1 then [cur] else []) ++ annihilateGo g 1 rest

/-- The collision-resolution loop of `typeFields` (its `out := fields[:0]`
loop): among a maximal run of equal names, keep the field only when the run
has length one — the `dominantField` resolution of the encoding/json original
is commented out in the source, so several fields with one name are all
dropped. -/
def annihilate : List FieldRec → List FieldRec
  | [] => []
  | f :: rest => annihilateGo f 1 rest

/-- Name order used to state that the walker's field list is sorted by name
(`strLt b.name a.name = false` says `a.name ≤ b.name`). -/
def nameLe (a b : FieldRec) : Prop :=
  strLt b.name a.name = false

/-- Number of fields with a given name. -/
def occName (l : List FieldRec) (n : String) : Nat :=
  (l.filter (fun g => g.name == n)).length

/-- Fuel for the level loop: the loop stops by itself at the first empty
queue, and the number of levels is bounded by the number of distinct
reachable types, so any generous bound is exact for realistic inputs; the
constant only guards totality in Lean. -/
def bfsFuel : Nat := 1000

/-- Source `typeFields`: breadth-first scan, sort by (name, depth, index),
collision annihilation, final sort by index sequence. -/
def typeFields (t : GoTy) : List FieldRec :=
  let raw := bfsLoop bfsFuel {} [{ name := "", index := [], typ := t, spec := none }]
  let sorted := sortLe (fun x y => !(fieldLess y x)) raw
  let out := annihilate sorted
  sortLe (fun x y => !(byIndexLess y.index x.index)) out

/-! ### Type dispatcher on nil pointers (source `typeBinder`, `ptrBinder.bind`,
`flagValueBinder`)

For claim C3 the relevant dispatch is on a field of pointer kind holding nil:
`typeBinder` first sends pointer types implementing `flag.Value` to
`flagValueBinder` (which performs no nil check), and only otherwise to
`ptrBinder`, whose nil branch admits exactly `**bool`, `**string`, `**int`
and `**int64`.  A custom `Flagger` is not supplied (the built-in dispatch of
the claim). -/

/-- The value types the dispatcher distinguishes; a struct records whether its
pointer type implements `flag.Value` (a property of the type's method set). -/
inductive BTy where
  | tbool
  | tstring
  | tint
  | tint64
  | tint8
  | tuint
  | tfloat64
  | tnetIP
  | tduration
  | tstruct (flagValue : Bool)
  | tptr (elem : BTy)
  | tslice (elem : BTy)
deriving DecidableEq, Repr

/-- Go `t.Implements(flag.Value)` for the modelled types: only a pointer to a
struct whose method set provides the capability. -/
def implementsFlagValue : BTy → Bool
  | .tptr (.tstruct fv) => fv
  | _ => false

/-- Outcome of running a binder on a field. -/
inductive BindOutcome where
  | bound
  | errNilPtr
  | errWrongType
deriving DecidableEq, Repr

/-- Source `ptrBinder.bind` on a nil pointer: the `**bool, **string, **int,
**int64` switch, everything else "can't bind to nil pointer". -/
def ptrBinderNil (elem : BTy) : BindOutcome :=
  match elem with
  | .tbool => .bound
  | .tstring => .bound
  | .tint => .bound
  | .tint64 => .bound
  | _ => .errNilPtr

/-- Source `flagValueBinder` on a (possibly nil) pointer value: only the
interface assertion is checked; a nil pointer passes it. -/
def flagValueBinderNil (t : BTy) : BindOutcome :=
  if implementsFlagValue t then .bound else .errWrongType

/-- Dispatch of `typeBinder` for a pointer-typed field holding nil. -/
def bindNilPtrField (elem : BTy) : BindOutcome :=
  if implementsFlagValue (.tptr elem) then flagValueBinderNil (.tptr elem)
  else ptrBinderNil elem

/-! ### Spec-side predicates and concrete inputs used by the theorems -/

/-- The spec's positional-order rule: either no positional argument carries an
explicit (non-negative) order, or the explicit orders all lie in `0..N-1`
with no duplicates (hence form a contiguous permutation). -/
def ordersOK (argFlags : List FlagBond) : Prop :=
  (∀ fb ∈ argFlags, fb.argOrder < 0) ∨
  ((∀ fb ∈ argFlags, 0 ≤ fb.argOrder ∧ fb.argOrder < (argFlags.length : Int)) ∧
    (argFlags.map (fun fb => fb.argOrder)).Nodup)

/-- The effective token applied to slot `j` by the `SetArgs` loop over `k`
declared slots: the comma-join of the remaining tokens on a trailing slice
slot when tokens outnumber slots, the slot's own token otherwise. -/
def effArg (k : Nat) (vs : Nat → FVal) (allArgs : List String) (j : Nat) : String :=
  if j = k - 1 ∧ k < allArgs.length ∧ isSliceValue (.handle (vs j)) = true then
    String.intercalate "," (allArgs.drop j)
  else allArgs.getD j ""

/-- Count of filled slots of an option array. -/
def countSome {α : Type} (l : List (Option α)) : Nat :=
  (l.filter (fun o => o.isSome)).length

/-- An ordered arg bond (order 0) for the C5 counterexample. -/
def mixA : FlagBond :=
  { isArg := true, name := "a", value := .str "", argOrder := 0 }

/-- An unordered arg bond for the C5 counterexample. -/
def mixB : FlagBond :=
  { isArg := true, name := "b", value := .str "", argOrder := -1 }

/-- Inner struct of the C6 counterexample: one positional field named `X`. -/
def innerX : GoTy :=
  .strukt 2 [(⟨"X", false, true, "arg,X", ""⟩, .prim "string")]

/-- Root struct of the C6 counterexample: a positional field named `X` and an
embedded anonymous struct whose own field also resolves to the name `X`. -/
def rootShadow : GoTy :=
  .strukt 1 [(⟨"X", false, true, "arg,X", ""⟩, .prim "string"),
    (⟨"E", true, true, "", ""⟩, innerX)]

/-- Concrete ordered arg bonds for the C1 witness (declared `ID` before
`Token`, with explicit orders 1 and 0). -/
def wID : FlagBond :=
  { isArg := true, name := "ID", value := .str "", argOrder := 1 }

/-- Second C1 witness bond. -/
def wTok : FlagBond :=
  { isArg := true, name := "Token", value := .str "", argOrder := 0 }

/-- Unordered fixed bonds and trailing slice bond for the C4 witness. -/
def wTokU : FlagBond :=
  { isArg := true, name := "Token", value := .str "", argOrder := -1 }

/-- Second unordered C4 witness bond. -/
def wIDU : FlagBond :=
  { isArg := true, name := "ID", value := .str "", argOrder := -1 }

/-- Trailing slice bond for the C4 witness. -/
def wHashesU : FlagBond :=
  { isArg := true, name := "Hashes", value := .strSlice false [], argOrder := -1 }

/-! ## Helper lemmas -/

theorem lookupFlag_append_none (l1 l2 : List (String × PVal)) (n : String)
    (h : lookupFlag l1 n = none) : lookupFlag (l1 ++ l2) n = lookupFlag l2 n := by
  induction l1 with
  | nil => simp
  | cons e rest ih =>
    by_cases he : e.1 = n
    · simp [lookupFlag, he] at h
    · simp only [lookupFlag, he, if_false, List.cons_append] at h ⊢
      exact ih h

theorem lookupFlag_append_some (l1 l2 : List (String × PVal)) (n : String) (v : PVal)
    (h : lookupFlag l1 n = some v) : lookupFlag (l1 ++ l2) n = some v := by
  induction l1 with
  | nil => simp [lookupFlag] at h
  | cons e rest ih =>
    by_cases he : e.1 = n <;>
      simp only [lookupFlag, he, if_true, if_false, List.cons_append] at h ⊢
    · exact h
    · exact ih h

theorem lookupFlag_append_not_named (l1 l2 : List (String × PVal)) (n : String)
    (h : ∀ e ∈ l2, e.1 ≠ n) : lookupFlag (l1 ++ l2) n = lookupFlag l1 n := by
  induction l1 with
  | nil =>
    simp only [List.nil_append, lookupFlag]
    induction l2 with
    | nil => rfl
    | cons e rest ih =>
      simp only [lookupFlag, h e (by simp), if_false]
      exact ih (fun e' he' => h e' (by simp [he']))
  | cons e rest ih =>
    by_cases he : e.1 = n <;> simp only [lookupFlag, he, if_true, if_false, List.cons_append]
    exact ih

/-! ## Claim theorems (easy group) -/

/-- C10: binding a nil input value succeeds, stores nil as the command's
input, registers no flags or arguments (the only new entry is the hidden
input holder), and a subsequent input lookup returns nil. -/
theorem c10_bind_nil_input (cmd : Cmd) (h : lookupFlag cmd.flags "$input" = none) :
    (bindCustomNil cmd).2 = none ∧
    (bindCustomNil cmd).1.flags = cmd.flags ++ [("$input", PVal.inputV none)] ∧
    getCmdInput (bindCustomNil cmd).1 = some none := by
  refine ⟨rfl, rfl, ?_⟩
  unfold getCmdInput bindCustomNil
  simp only
  rw [lookupFlag_append_none _ _ _ h]
  rfl

/-- Witness for C10 at the empty command. -/
theorem c10_bind_nil_input_witness :
    (bindCustomNil ⟨[]⟩).2 = none ∧
    (bindCustomNil ⟨[]⟩).1.flags = ([] : List (String × PVal)) ++ [("$input", PVal.inputV none)] ∧
    getCmdInput (bindCustomNil ⟨[]⟩).1 = some none :=
  c10_bind_nil_input ⟨[]⟩ rfl

/-- C7: when `Set` of one of the binder's pointer-value handles fails to
parse its input, the referenced memory keeps exactly the value it held before
the call. -/
theorem c7_failed_set_keeps_value (pb : Option Bool) (pi1 pi2 : Option Int) (s : String) :
    ((ptrBoolValueSet pb s).2.isSome → (ptrBoolValueSet pb s).1 = pb) ∧
    ((ptrIntValueSet pi1 s).2.isSome → (ptrIntValueSet pi1 s).1 = pi1) ∧
    ((ptrInt64ValueSet pi2 s).2.isSome → (ptrInt64ValueSet pi2 s).1 = pi2) := by
  refine ⟨?_, ?_, ?_⟩ <;> intro h
  · cases hg : goParseBool s <;> simp [ptrBoolValueSet, hg] at h ⊢
  · cases hg : goAtoi s <;> simp [ptrIntValueSet, hg] at h ⊢
  · cases hg : goAtoi s <;> simp [ptrInt64ValueSet, hg] at h ⊢

/-- Witness for C7: the string "zz" parses as neither bool nor int, and each
handle keeps its previous value. -/
theorem c7_failed_set_keeps_value_witness :
    ((ptrBoolValueSet (some true) "zz").2.isSome = true ∧
      (ptrBoolValueSet (some true) "zz").1 = some true) ∧
    ((ptrIntValueSet (some 5) "zz").2.isSome = true ∧
      (ptrIntValueSet (some 5) "zz").1 = some 5) ∧
    ((ptrInt64ValueSet (some 6) "zz").2.isSome = true ∧
      (ptrInt64ValueSet (some 6) "zz").1 = some 6) :=
  ⟨⟨by decide, (c7_failed_set_keeps_value (some true) (some 5) (some 6) "zz").1 (by decide)⟩,
   ⟨by decide, (c7_failed_set_keeps_value (some true) (some 5) (some 6) "zz").2.1 (by decide)⟩,
   ⟨by decide, (c7_failed_set_keeps_value (some true) (some 5) (some 6) "zz").2.2 (by decide)⟩⟩

/-- C8: a positional annotation whose order attribute does not parse as an
integer yields a spec with the unordered sentinel `-1`; tag parsing never
fails on a malformed order. -/
theorem c8_malformed_order_degrades (sf : SField)
    (h1 : sf.cmdTag ≠ "-") (h2 : sf.cmdTag ≠ "")
    (hk : tagKind sf.cmdTag = "" ∨ tagKind sf.cmdTag = "arg")
    (ho : goAtoi (optAt (parseTag sf.cmdTag).2 2) = none) :
    ∃ n d a, parseFieldTag sf = some (CmdSpec.arg n d (-1) a) := by
  rcases hk with hk | hk <;> simp [parseFieldTag, h1, h2, hk, ho]

/-- Witness for C8: order token "xyz". -/
theorem c8_malformed_order_degrades_witness :
    ∃ n d a, parseFieldTag ⟨"F", "arg,id,desc,xyz", ""⟩ = some (CmdSpec.arg n d (-1) a) :=
  c8_malformed_order_degrades ⟨"F", "arg,id,desc,xyz", ""⟩
    (by decide) (by decide) (by decide) (by decide)

/-- Counterexample to C9: the kind token ";" is non-empty and neither "flag"
nor "arg", yet the parser does not skip the field — it degrades the invalid
token to the empty kind and produces an arg spec. -/
theorem c9_counterexample :
    (parseTag ";,nm").1 = ";" ∧ isValidTag ";" = false ∧
    parseFieldTag ⟨"F", ";,nm", ""⟩ = some (CmdSpec.arg "nm" "" (-1) []) := by
  decide

/-- C9 amended: a non-empty kind token other than "flag"/"arg" yields "no
binding" only when it passes tag validation; a token failing validation (and
the empty token) degrades to the empty kind and so defaults to an arg spec. -/
theorem c9_amended_kind_dispatch (sf : SField)
    (h1 : sf.cmdTag ≠ "-") (h2 : sf.cmdTag ≠ "") :
    (tagKind sf.cmdTag ≠ "" → tagKind sf.cmdTag ≠ "flag" → tagKind sf.cmdTag ≠ "arg" →
      parseFieldTag sf = none) ∧
    (tagKind sf.cmdTag = "" →
      ∃ n d o a, parseFieldTag sf = some (CmdSpec.arg n d o a)) := by
  constructor
  · intro k1 k2 k3
    simp [parseFieldTag, h1, h2, k1, k2, k3]
  · intro k
    simp [parseFieldTag, h1, h2, k]

/-- Witness for the amended C9: kind "xyz" (valid, unknown) skips the field;
kind ";" (invalid) produces an arg spec. -/
theorem c9_amended_kind_dispatch_witness :
    parseFieldTag ⟨"F", "xyz,a", ""⟩ = none ∧
    (∃ n d o a, parseFieldTag ⟨"G", ";,b", ""⟩ = some (CmdSpec.arg n d o a)) :=
  ⟨(c9_amended_kind_dispatch ⟨"F", "xyz,a", ""⟩ (by decide) (by decide)).1
      (by decide) (by decide) (by decide),
   (c9_amended_kind_dispatch ⟨"G", ";,b", ""⟩ (by decide) (by decide)).2 (by decide)⟩

/-- Counterexample to C3: a nil pointer to a struct whose pointer type
implements the settable-value capability binds successfully although the
pointed-to type is none of bool, string, int, int64. -/
theorem c3_counterexample :
    implementsFlagValue (BTy.tptr (BTy.tstruct true)) = true ∧
    (BTy.tstruct true ≠ BTy.tbool ∧ BTy.tstruct true ≠ BTy.tstring ∧
      BTy.tstruct true ≠ BTy.tint ∧ BTy.tstruct true ≠ BTy.tint64) ∧
    bindNilPtrField (BTy.tstruct true) = BindOutcome.bound := by
  decide

/-- C3 amended: binding a nil pointer field succeeds exactly when the
pointed-to type is bool, string, int or int64, or the pointer type implements
the `flag.Value` capability (and is then dispatched to the flag-value binder
before the nil-pointer check). -/
theorem c3_amended_nil_ptr_dispatch (elem : BTy) :
    bindNilPtrField elem = BindOutcome.bound ↔
      (elem = BTy.tbool ∨ elem = BTy.tstring ∨ elem = BTy.tint ∨ elem = BTy.tint64 ∨
        implementsFlagValue (BTy.tptr elem) = true) := by
  cases elem <;>
    simp [bindNilPtrField, implementsFlagValue, ptrBinderNil, flagValueBinderNil]
  case tstruct fv => cases fv <;> simp

/-- Counterexample to C5: a struct mixing an ordered and an unordered
positional argument makes bind fail, but the failed bind leaves the command's
flag set changed (the `$flagset` registry entry was already installed). -/
theorem c5_counterexample :
    (bindGo ⟨[]⟩ [] [mixA, mixB] (some 0)).2 = some (Err.mixedOrder "b" (-1)) ∧
    (bindGo ⟨[]⟩ [] [mixA, mixB] (some 0)).1 ≠ (⟨[]⟩ : Cmd) := by
  decide

theorem charsLt_total (x y : List Char) (hne : x ≠ y) (h : charsLt y x = false) :
    charsLt x y = true := by
  induction x generalizing y with
  | nil =>
    cases y with
    | nil => exact absurd rfl hne
    | cons b bs => simp [charsLt]
  | cons a as ih =>
    cases y with
    | nil => simp [charsLt] at h
    | cons b bs =>
      by_cases hab : a = b
      · subst hab
        simp only [charsLt, if_pos rfl] at h ⊢
        exact ih bs (fun he => hne (by rw [he])) h
      · simp only [charsLt, if_neg (Ne.symm hab), decide_eq_false_iff_not] at h
        simp only [charsLt, if_neg hab, decide_eq_true_eq]
        exact lt_of_le_of_ne (not_lt.mp h) hab

theorem strLt_total (s t : String) (hne : s ≠ t) (h : strLt t s = false) :
    strLt s t = true := by
  apply charsLt_total _ _ _ h
  intro he
  apply hne
  cases s with
  | mk d1 =>
    cases t with
    | mk d2 =>
      have hd : d1 = d2 := he
      rw [hd]

/-- On a name-sorted list, once a run of the name `n` has ended at a
boundary field `g`, no later field is named `n`. -/
theorem no_name_after_boundary (cur g : FieldRec) (rest : List FieldRec) (n : String)
    (hp : List.Pairwise nameLe (cur :: g :: rest)) (hcur : cur.name = n)
    (hg : g.name ≠ cur.name) : ∀ e ∈ g :: rest, e.name ≠ n := by
  obtain ⟨hcg, hp'⟩ := List.pairwise_cons.mp hp
  obtain ⟨hge, hrest⟩ := List.pairwise_cons.mp hp'
  intro e he hen
  rcases List.mem_cons.mp he with he | he
  · subst he
    exact hg (hen.trans hcur.symm)
  · have hcurg : strLt cur.name g.name = true :=
      strLt_total _ _ (fun hx => hg hx.symm) (hcg g (by simp))
    have : strLt e.name g.name = false := hge e he
    rw [hen, ← hcur] at this
    rw [this] at hcurg
    exact Bool.false_ne_true hcurg

/-- Occurrence count through one cons cell. -/
theorem occName_cons (g : FieldRec) (l : List FieldRec) (n : String) :
    occName (g :: l) n = (if g.name = n then 1 else 0) + occName l n := by
  by_cases h : g.name = n
  · simp [occName, List.filter_cons, h, Nat.add_comm]
  · simp [occName, List.filter_cons, h]

/-- Core of the amended C6: running the collision loop from the `k`-th field
of the current run, when the name `n` occurs at least twice in total (or not
at all any more), no field named `n` survives. -/
theorem annihilateGo_not_named (n : String) (rest : List FieldRec) :
    ∀ (cur : FieldRec) (k : Nat), 1 ≤ k →
      List.Pairwise nameLe (cur :: rest) →
      (2 ≤ (if cur.name = n then k else 0) + occName rest n ∨
        (cur.name ≠ n ∧ occName rest n = 0)) →
      ∀ f ∈ annihilateGo cur k rest, f.name ≠ n := by
  induction rest with
  | nil =>
    intro cur k hk hp hd f hf
    simp only [annihilateGo] at hf
    by_cases hcn : cur.name = n
    · rcases hd with hd | hd
      · simp [hcn, occName] at hd
        have hne1 : ¬ k = 1 := by omega
        simp [hne1] at hf
      · exact absurd hcn hd.1
    · by_cases hk1 : k = 1
      · simp [hk1] at hf
        rw [hf]
        exact hcn
      · simp [hk1] at hf
  | cons g rest' ih =>
    intro cur k hk hp hd f hf
    have hpg : List.Pairwise nameLe (g :: rest') := hp.tail
    rw [occName_cons] at hd
    by_cases hgc : g.name = cur.name
    · simp only [annihilateGo, hgc, beq_self_eq_true, if_true] at hf
      apply ih cur (k + 1) (by omega) ?_ ?_ f hf
      · obtain ⟨hcg, hpr⟩ := List.pairwise_cons.mp hp
        exact List.Pairwise.cons (fun b hb => hcg b (by simp [hb])) hpr.tail
      · by_cases hcn : cur.name = n
        · left
          have hgn : g.name = n := hgc.trans hcn
          rcases hd with hd | hd
          · simp only [hcn, hgn, if_pos] at hd ⊢
            omega
          · exact absurd hcn hd.1
        · have hgn : ¬ g.name = n := fun hx => hcn (by rw [← hgc]; exact hx)
          rcases hd with hd | hd
          · left
            simp only [hcn, hgn, if_neg, not_false_iff] at hd ⊢
            omega
          · right
            simp only [hgn, if_neg, not_false_iff] at hd
            exact ⟨hd.1, by omega⟩
    · have hbeq : (g.name == cur.name) = false := by simpa using hgc
      simp only [annihilateGo, hbeq, Bool.false_eq_true, if_false, List.mem_append] at hf
      rcases hf with hf | hf
      · by_cases h1 : k = 1
        · simp only [h1, if_pos, List.mem_singleton] at hf
          rw [hf]
          intro hcn
          rcases hd with hd | hd
          · rw [if_pos hcn, h1] at hd
            by_cases hgn : g.name = n
            · exact no_name_after_boundary cur g rest' n hp hcn
                (fun hx => hgc hx) g (by simp) hgn
            · have hocc : 1 ≤ occName rest' n := by
                rw [if_neg hgn] at hd
                omega
              obtain ⟨e, he, hen⟩ : ∃ e ∈ rest', e.name = n := by
                have hlen : 0 < (rest'.filter (fun g => g.name == n)).length := by
                  simpa [occName] using hocc
                rcases List.length_pos_iff_exists_mem.mp hlen with ⟨e, he⟩
                exact ⟨e, (List.mem_filter.mp he).1, by
                  simpa using (List.mem_filter.mp he).2⟩
              exact no_name_after_boundary cur g rest' n hp hcn
                (fun hx => hgc hx) e (by simp [he]) hen
          · exact hd.1 hcn
        · simp [h1] at hf
      · apply ih g 1 (by omega) hpg ?_ f hf
        by_cases hgn : g.name = n
        · left
          have hcn : cur.name ≠ n := fun hx => hgc (hgn.trans hx.symm)
          rcases hd with hd | hd
          · rw [if_neg hcn] at hd
            rw [if_pos hgn] at hd ⊢
            omega
          · rw [if_pos hgn] at hd
            exact absurd hd.2 (by omega)
        · by_cases hcn : cur.name = n
          · right
            refine ⟨hgn, ?_⟩
            have hnone := no_name_after_boundary cur g rest' n hp hcn
              (fun hx => hgc hx)
            have hfilt : ∀ e ∈ rest', ¬ (e.name == n) = true := by
              intro e he
              simpa using hnone e (by simp [he])
            have hnil : rest'.filter (fun g => g.name == n) = [] :=
              List.filter_eq_nil_iff.mpr hfilt
            simp [occName, hnil]
          · rcases hd with hd | hd
            · left
              rw [if_neg hcn] at hd
              rw [if_neg hgn] at hd ⊢
              omega
            · right
              rw [if_neg hgn] at hd
              exact ⟨hgn, by omega⟩

/-- C6 amended: when at least two fields of the (name-sorted) walker output
resolve to the same name, the collision-resolution step drops all of them —
the shallower field is not kept, and no field with that name survives. -/
theorem c6_amended_collisions_drop_all (fields : List FieldRec) (n : String)
    (hs : List.Pairwise nameLe fields)
    (h2 : 2 ≤ occName fields n) :
    ∀ f ∈ annihilate fields, f.name ≠ n := by
  cases fields with
  | nil => simp [annihilate]
  | cons f rest =>
    simp only [annihilate]
    apply annihilateGo_not_named n rest f 1 (by omega) hs
    left
    simp only [occName, List.filter_cons] at h2
    by_cases hfn : f.name = n
    · simp only [hfn, if_pos, beq_self_eq_true, List.length_cons] at h2 ⊢
      simp only [occName]
      omega
    · have : (f.name == n) = false := by simpa using hfn
      simp only [this, Bool.false_eq_true, if_false, hfn, if_neg] at h2 ⊢
      simpa [occName] using h2

/-- Witness for the amended C6: two fields named `X` at depths 1 and 2; none
survives the collision step (the surviving list holds no field named `X`). -/
theorem c6_amended_collisions_drop_all_witness :
    (annihilate
        [{ name := "X", index := [0], typ := GoTy.prim "string",
           spec := some (CmdSpec.arg "X" "" (-1) []) },
         { name := "X", index := [1, 0], typ := GoTy.prim "string",
           spec := some (CmdSpec.arg "X" "" (-1) []) }]).filter
      (fun f => f.name == "X") = [] :=
  List.filter_eq_nil_iff.mpr (fun f hf => by
    have hne := c6_amended_collisions_drop_all _ "X"
      (List.Pairwise.cons (fun b hb => by
          rcases List.mem_singleton.mp hb with rfl
          exact (by decide : strLt "X" "X" = false))
        (List.Pairwise.cons (fun b hb => by simp at hb) List.Pairwise.nil))
      (by decide) f hf
    simpa using hne)

/-- Counterexample to C6: with a root field `X` and a deeper embedded field
also resolving to `X`, the breadth-first scan finds both, and the
collision-resolution step drops both — the walker does not keep the
shallower one, and nothing is registered under `X`. -/
theorem c6_counterexample :
    (bfsLoop bfsFuel {} [{ name := "", index := [], typ := rootShadow, spec := none }]).map
        (fun f => (f.name, f.index)) = [("X", [0]), ("X", [1, 0])] ∧
    typeFields rootShadow = [] := by
  constructor <;> rfl

/-! ## Bind-loop analysis -/

theorem getD_set_self {α : Type} (l : List (Option α)) (i : Nat) (a : Option α)
    (h : i < l.length) : (l.set i a).getD i none = a := by
  induction l generalizing i with
  | nil => simp at h
  | cons x xs ih =>
    cases i with
    | zero => rfl
    | succ j =>
      simp only [List.set_cons_succ, List.getD_cons_succ]
      exact ih j (by simpa using h)

theorem getD_set_ne {α : Type} (l : List (Option α)) (i j : Nat) (a : Option α)
    (h : i ≠ j) : (l.set i a).getD j none = l.getD j none := by
  induction l generalizing i j with
  | nil => rfl
  | cons x xs ih =>
    cases i with
    | zero =>
      cases j with
      | zero => exact absurd rfl h
      | succ k => rfl
    | succ i2 =>
      cases j with
      | zero => rfl
      | succ k =>
        simp only [List.set_cons_succ, List.getD_cons_succ]
        exact ih i2 k (fun he => h (by rw [he]))

theorem getD_replicate_none {α : Type} (n j : Nat) :
    ((List.replicate n (none : Option α)).getD j none) = none := by
  induction n generalizing j with
  | zero => rfl
  | succ m ih =>
    cases j with
    | zero => rfl
    | succ k =>
      simp only [List.replicate, List.getD_cons_succ]
      exact ih k

theorem checkMixed_eq_none_iff (l : List FlagBond) :
    checkMixed l = none ↔
      ((∀ fb ∈ l, fb.argOrder < 0) ∨ (∀ fb ∈ l, 0 ≤ fb.argOrder)) := by
  cases l with
  | nil => simp [checkMixed]
  | cons fb0 rest =>
    have key : checkMixed (fb0 :: rest) = none ↔
        ∀ fb ∈ rest, (decide (0 ≤ fb.argOrder) != decide (0 ≤ fb0.argOrder)) = false := by
      simp only [checkMixed]
      cases hfind : rest.find?
          (fun fb => decide (0 ≤ fb.argOrder) != decide (0 ≤ fb0.argOrder)) with
      | none =>
        simp only
        constructor
        · intro _ fb hfb
          have := List.find?_eq_none.mp hfind fb hfb
          simpa using this
        · intro _
          trivial
      | some fb =>
        simp only
        constructor
        · intro h
          cases h
        · intro hall
          have hp := List.find?_some hfind
          have hfbmem : fb ∈ rest := List.mem_of_find?_eq_some hfind
          rw [hall fb hfbmem] at hp
          cases hp
    rw [key]
    constructor
    · intro hall
      by_cases h0 : 0 ≤ fb0.argOrder
      · right
        intro fb hfb
        rcases List.mem_cons.mp hfb with rfl | hfb
        · exact h0
        · have hiff := hall fb hfb
          simp only [bne_eq_false_iff_eq, decide_eq_decide] at hiff
          exact hiff.mpr h0
      · left
        intro fb hfb
        rcases List.mem_cons.mp hfb with rfl | hfb
        · omega
        · have hiff := hall fb hfb
          simp only [bne_eq_false_iff_eq, decide_eq_decide] at hiff
          have : ¬ 0 ≤ fb.argOrder := fun hx => h0 (hiff.mp hx)
          omega
    · intro hor fb hfb
      simp only [bne_eq_false_iff_eq, decide_eq_decide]
      rcases hor with hall | hall
      · have h1 := hall fb (List.mem_cons_of_mem _ hfb)
        have h0 := hall fb0 (List.mem_cons_self _ _)
        constructor <;> intro <;> omega
      · have h1 := hall fb (List.mem_cons_of_mem _ hfb)
        have h0 := hall fb0 (List.mem_cons_self _ _)
        constructor <;> intro <;> omega

theorem foldl_configureFlag_flags (l : List FlagBond) :
    ∀ cmd : Cmd, (l.foldl configureFlag cmd).flags =
      cmd.flags ++ l.map (fun fb => (fb.name, PVal.handle fb.value)) := by
  induction l with
  | nil =>
    intro cmd
    simp
  | cons fb rest ih =>
    intro cmd
    simp only [List.foldl_cons, ih, configureFlag, List.map_cons]
    simp

theorem configureCmd_flags (cmd : Cmd) (l : List FlagBond) :
    (configureCmd cmd l).flags =
      cmd.flags ++ l.map (fun fb => (fb.name, PVal.handle fb.value)) ++
        [("$flagset", PVal.flagsetV (l.map (fun fb => (fb.name, fb))))] := by
  simp [configureCmd, foldl_configureFlag_flags]

theorem bindArgsLoop_nil (n i : Nat) (cmd : Cmd) (argf : List (Option FlagBond)) :
    bindArgsLoop n i [] cmd argf = (cmd, argf, none) := rfl

theorem bindArgsLoop_cons (n i : Nat) (fb : FlagBond) (rest : List FlagBond)
    (cmd : Cmd) (argf : List (Option FlagBond)) :
    bindArgsLoop n i (fb :: rest) cmd argf =
      (if 0 ≤ fb.argOrder then
        if (n : Int) ≤ fb.argOrder then
          (configureFlag cmd { fb with hidden := true }, argf,
            some (.invalidOrder fb.argOrder))
        else if (argf.getD fb.argOrder.toNat none).isSome then
          (configureFlag cmd { fb with hidden := true }, argf,
            some (.duplicateOrder fb.argOrder))
        else bindArgsLoop n (i + 1) rest (configureFlag cmd { fb with hidden := true })
          (argf.set fb.argOrder.toNat (some { fb with hidden := true }))
      else bindArgsLoop n (i + 1) rest (configureFlag cmd { fb with hidden := true })
        (argf.set i (some { fb with hidden := true }))) := rfl

theorem bindArgsLoop_unordered_none (n : Nat) (l : List FlagBond)
    (hun : ∀ fb ∈ l, fb.argOrder < 0) :
    ∀ i cmd argf, (bindArgsLoop n i l cmd argf).2.2 = none := by
  induction l with
  | nil =>
    intro i cmd argf
    rfl
  | cons fb rest ih =>
    intro i cmd argf
    have h0 : ¬ 0 ≤ fb.argOrder := by
      have := hun fb (List.mem_cons_self _ _)
      omega
    rw [bindArgsLoop_cons, if_neg h0]
    exact ih (fun fb2 h2 => hun fb2 (List.mem_cons_of_mem _ h2)) _ _ _

theorem bindArgsLoop_unordered_getD (n : Nat) (l : List FlagBond)
    (hun : ∀ fb ∈ l, fb.argOrder < 0) :
    ∀ i cmd argf j, i + l.length ≤ argf.length → j < argf.length →
      ((bindArgsLoop n i l cmd argf).2.1).getD j none =
        (if i ≤ j ∧ j < i + l.length then
          some { l.getD (j - i) default with hidden := true }
         else argf.getD j none) := by
  induction l with
  | nil =>
    intro i cmd argf j _ _
    rw [bindArgsLoop_nil]
    simp only [List.length_nil]
    rw [if_neg (by omega)]
  | cons fb rest ih =>
    intro i cmd argf j hb hj
    have h0 : ¬ 0 ≤ fb.argOrder := by
      have := hun fb (List.mem_cons_self _ _)
      omega
    rw [bindArgsLoop_cons, if_neg h0]
    simp only [List.length_cons] at hb ⊢
    have hi : i < argf.length := by omega
    have hb2 : (i + 1) + rest.length ≤
        (argf.set i (some { fb with hidden := true })).length := by
      simp only [List.length_set]
      omega
    have hj2 : j < (argf.set i (some { fb with hidden := true })).length := by
      simp only [List.length_set]
      exact hj
    rw [ih (fun fb2 h2 => hun fb2 (List.mem_cons_of_mem _ h2)) (i + 1) _ _ j hb2 hj2]
    by_cases hji : j = i
    · subst hji
      rw [if_neg (by omega), if_pos (by omega)]
      rw [getD_set_self _ _ _ hi]
      simp
    · by_cases hin : i + 1 ≤ j ∧ j < i + 1 + rest.length
      · rw [if_pos hin, if_pos (by omega)]
        have hsub : j - i = (j - (i + 1)) + 1 := by omega
        rw [hsub, List.getD_cons_succ]
      · rw [if_neg hin, if_neg (by omega)]
        exact getD_set_ne _ _ _ _ (fun he => hji he.symm)

theorem bindArgsLoop_ordered_iff (n : Nat) (l : List FlagBond)
    (hord : ∀ fb ∈ l, 0 ≤ fb.argOrder) :
    ∀ i cmd argf, argf.length = n →
      ((bindArgsLoop n i l cmd argf).2.2 = none ↔
        ((∀ fb ∈ l, fb.argOrder < (n : Int)) ∧
          (l.map (fun fb => fb.argOrder)).Nodup ∧
          (∀ fb ∈ l, argf.getD fb.argOrder.toNat none = none))) := by
  induction l with
  | nil =>
    intro i cmd argf hlen
    simp [bindArgsLoop_nil]
  | cons fb rest ih =>
    intro i cmd argf hlen
    have h0 : 0 ≤ fb.argOrder := hord fb (List.mem_cons_self _ _)
    have hordr : ∀ fb2 ∈ rest, 0 ≤ fb2.argOrder :=
      fun fb2 h2 => hord fb2 (List.mem_cons_of_mem _ h2)
    rw [bindArgsLoop_cons, if_pos h0]
    by_cases h1 : (n : Int) ≤ fb.argOrder
    · rw [if_pos h1]
      have : ¬ fb.argOrder < (n : Int) := by omega
      simp [this]
    · rw [if_neg h1]
      by_cases h2 : (argf.getD fb.argOrder.toNat none).isSome = true
      · rw [if_pos h2]
        simp only
        constructor
        · intro h
          cases h
        · intro hc
          have := hc.2.2 fb (List.mem_cons_self _ _)
          rw [this] at h2
          cases h2
      · rw [if_neg h2]
        have hfree : argf.getD fb.argOrder.toNat none = none := by
          cases hx : argf.getD fb.argOrder.toNat none with
          | none => rfl
          | some y =>
            rw [hx] at h2
            simp at h2
        have hlt : fb.argOrder.toNat < argf.length := by
          rw [hlen]
          omega
        rw [ih hordr (i + 1) (configureFlag cmd { fb with hidden := true })
          (argf.set fb.argOrder.toNat (some { fb with hidden := true }))
          (by rw [List.length_set]; exact hlen)]
        constructor
        · rintro ⟨hr1, hr2, hr3⟩
          refine ⟨?_, ?_, ?_⟩
          · intro fb2 h2m
            rcases List.mem_cons.mp h2m with rfl | h2m
            · omega
            · exact hr1 fb2 h2m
          · simp only [List.map_cons, List.nodup_cons]
            refine ⟨?_, hr2⟩
            intro hmem
            rcases List.mem_map.mp hmem with ⟨fb2, h2m, heq⟩
            have hh := hr3 fb2 h2m
            have he : fb.argOrder.toNat = fb2.argOrder.toNat := by
              have := hordr fb2 h2m
              omega
            rw [← he, getD_set_self _ _ _ hlt] at hh
            cases hh
          · intro fb2 h2m
            rcases List.mem_cons.mp h2m with rfl | h2m
            · exact hfree
            · have hh := hr3 fb2 h2m
              by_cases he : fb.argOrder.toNat = fb2.argOrder.toNat
              · rw [← he, getD_set_self _ _ _ hlt] at hh
                cases hh
              · rw [getD_set_ne _ _ _ _ he] at hh
                exact hh
        · rintro ⟨hr1, hr2, hr3⟩
          simp only [List.map_cons, List.nodup_cons] at hr2
          refine ⟨fun fb2 h2m => hr1 fb2 (List.mem_cons_of_mem _ h2m), hr2.2, ?_⟩
          intro fb2 h2m
          have hne : fb.argOrder.toNat ≠ fb2.argOrder.toNat := by
            intro he
            apply hr2.1
            have h02 : 0 ≤ fb2.argOrder := hordr fb2 h2m
            have hoe : fb.argOrder = fb2.argOrder := by omega
            exact List.mem_map.mpr ⟨fb2, h2m, hoe.symm⟩
          rw [getD_set_ne _ _ _ _ hne]
          exact hr3 fb2 (List.mem_cons_of_mem _ h2m)

theorem bindArgsLoop_mono (n : Nat) (l : List FlagBond)
    (hord : ∀ fb ∈ l, 0 ≤ fb.argOrder) :
    ∀ i cmd argf j x, (bindArgsLoop n i l cmd argf).2.2 = none →
      argf.getD j none = some x →
      ((bindArgsLoop n i l cmd argf).2.1).getD j none = some x := by
  induction l with
  | nil =>
    intro i cmd argf j x _ hx
    exact hx
  | cons fb rest ih =>
    intro i cmd argf j x hsucc hx
    have h0 : 0 ≤ fb.argOrder := hord fb (List.mem_cons_self _ _)
    have hordr : ∀ fb2 ∈ rest, 0 ≤ fb2.argOrder :=
      fun fb2 h2 => hord fb2 (List.mem_cons_of_mem _ h2)
    rw [bindArgsLoop_cons, if_pos h0] at hsucc ⊢
    by_cases h1 : (n : Int) ≤ fb.argOrder
    · rw [if_pos h1] at hsucc
      cases hsucc
    · rw [if_neg h1] at hsucc ⊢
      by_cases h2 : (argf.getD fb.argOrder.toNat none).isSome = true
      · rw [if_pos h2] at hsucc
        cases hsucc
      · rw [if_neg h2] at hsucc ⊢
        have hne : fb.argOrder.toNat ≠ j := by
          intro he
          rw [he, hx] at h2
          cases h2 rfl
        apply ih hordr _ _ _ _ _ hsucc
        rw [getD_set_ne _ _ _ _ hne]
        exact hx

theorem bindArgsLoop_placed (n : Nat) (l : List FlagBond)
    (hord : ∀ fb ∈ l, 0 ≤ fb.argOrder) :
    ∀ i cmd argf, argf.length = n →
      (bindArgsLoop n i l cmd argf).2.2 = none →
      ∀ fb ∈ l, ((bindArgsLoop n i l cmd argf).2.1).getD fb.argOrder.toNat none =
        some { fb with hidden := true } := by
  induction l with
  | nil =>
    intro i cmd argf _ _ fb hfb
    simp at hfb
  | cons fb0 rest ih =>
    intro i cmd argf hlen hsucc fb hfb
    have h0 : 0 ≤ fb0.argOrder := hord fb0 (List.mem_cons_self _ _)
    have hordr : ∀ fb2 ∈ rest, 0 ≤ fb2.argOrder :=
      fun fb2 h2 => hord fb2 (List.mem_cons_of_mem _ h2)
    rw [bindArgsLoop_cons, if_pos h0] at hsucc ⊢
    by_cases h1 : (n : Int) ≤ fb0.argOrder
    · rw [if_pos h1] at hsucc
      cases hsucc
    · rw [if_neg h1] at hsucc ⊢
      by_cases h2 : (argf.getD fb0.argOrder.toNat none).isSome = true
      · rw [if_pos h2] at hsucc
        cases hsucc
      · rw [if_neg h2] at hsucc ⊢
        have hlt : fb0.argOrder.toNat < argf.length := by
          rw [hlen]
          omega
        rcases List.mem_cons.mp hfb with rfl | hfb
        · apply bindArgsLoop_mono n rest hordr _ _ _ _ _ hsucc
          rw [getD_set_self _ _ _ hlt]
        · exact ih hordr _ _ _ (by rw [List.length_set]; exact hlen) hsucc fb hfb

theorem bindGo_none_iff (cmd : Cmd) (flagList argFlags : List FlagBond) (v : Option Nat) :
    (bindGo cmd flagList argFlags v).2 = none ↔ ordersOK argFlags := by
  simp only [bindGo]
  cases hm : checkMixed argFlags with
  | some e =>
    simp only
    constructor
    · intro h
      cases h
    · intro hOK
      have : checkMixed argFlags = none := by
        rw [checkMixed_eq_none_iff]
        rcases hOK with h | h
        · exact Or.inl h
        · exact Or.inr (fun fb hfb => (h.1 fb hfb).1)
      rw [hm] at this
      cases this
  | none =>
    simp only
    have hdisj := (checkMixed_eq_none_iff argFlags).mp hm
    rcases hdisj with hun | hord
    · have hnone := bindArgsLoop_unordered_none argFlags.length argFlags hun 0
        (configureCmd cmd flagList) (List.replicate argFlags.length none)
      rcases hres : bindArgsLoop argFlags.length 0 argFlags (configureCmd cmd flagList)
          (List.replicate argFlags.length none) with ⟨c2, argf, err⟩
      rw [hres] at hnone
      simp only at hnone
      subst hnone
      simp only
      constructor
      · intro _
        exact Or.inl hun
      · intro _
        trivial
    · have hiff := bindArgsLoop_ordered_iff argFlags.length argFlags hord 0
        (configureCmd cmd flagList) (List.replicate argFlags.length none)
        (by simp)
      rcases hres : bindArgsLoop argFlags.length 0 argFlags (configureCmd cmd flagList)
          (List.replicate argFlags.length none) with ⟨c2, argf, err⟩
      rw [hres] at hiff
      simp only at hiff
      cases err with
      | none =>
        simp only
        constructor
        · intro _
          right
          have hc := hiff.mp rfl
          refine ⟨fun fb hfb => ⟨hord fb hfb, hc.1 fb hfb⟩, hc.2.1⟩
        · intro _
          trivial
      | some e =>
        simp only
        constructor
        · intro h
          cases h
        · intro hOK
          rcases hOK with h | h
          · rcases argFlags with _ | ⟨fb0, rest⟩
            · have := hiff.mpr (by simp)
              cases this
            · have h1 := h fb0 (List.mem_cons_self _ _)
              have h2 := hord fb0 (List.mem_cons_self _ _)
              omega
          · have := hiff.mpr ⟨fun fb hfb => (h.1 fb hfb).2, h.2,
              fun fb _ => getD_replicate_none _ _⟩
            cases this

/-- C2: bind fails with a validation error exactly when the positional orders
deviate from the rule — mixing ordered and unordered args, an out-of-range
order, or a duplicate order each make `bind` return an error, and otherwise
(explicit orders forming a permutation of `0..N-1`, or no explicit orders at
all) bind succeeds.  The error is produced by the bind operation itself,
before any token application. -/
theorem c2_order_validation_iff (cmd : Cmd) (flagList argFlags : List FlagBond)
    (v : Option Nat) :
    (bindGo cmd flagList argFlags v).2 = none ↔ ordersOK argFlags :=
  bindGo_none_iff cmd flagList argFlags v

/-! ## SetArgs-loop analysis -/

theorem lookupFlag_update_other (fl : List (String × PVal)) (m nm : String) (v : PVal)
    (h : nm ≠ m) : lookupFlag (updateFlag fl m v) nm = lookupFlag fl nm := by
  induction fl with
  | nil => rfl
  | cons e rest ih =>
    by_cases he : e.1 = m
    · rw [updateFlag, if_pos he]
      have hne : ¬ e.1 = nm := fun hx => h (by rw [← hx, he])
      simp only [lookupFlag, if_neg hne]
    · rw [updateFlag, if_neg he]
      by_cases hx : e.1 = nm
      · simp only [lookupFlag, if_pos hx]
      · simp only [lookupFlag, if_neg hx]
        exact ih

theorem lookupFlag_update_self (fl : List (String × PVal)) (m : String) (v w : PVal)
    (h : lookupFlag fl m = some w) : lookupFlag (updateFlag fl m v) m = some v := by
  induction fl with
  | nil => simp [lookupFlag] at h
  | cons e rest ih =>
    by_cases he : e.1 = m
    · rw [updateFlag, if_pos he]
      simp only [lookupFlag, if_pos he]
    · rw [updateFlag, if_neg he]
      simp only [lookupFlag, if_neg he] at h ⊢
      exact ih h

theorem drop_parts {α : Type} (l : List α) (d : α) :
    ∀ (i : Nat) (a : α) (t : List α), l.drop i = a :: t →
      l.getD i d = a ∧ l.drop (i + 1) = t := by
  induction l with
  | nil =>
    intro i a t h
    simp at h
  | cons x xs ih =>
    intro i a t h
    cases i with
    | zero =>
      simp only [List.drop_zero] at h
      cases h
      exact ⟨rfl, by simp⟩
    | succ j =>
      simp only [List.drop_succ_cons] at h
      have hr := ih j a t h
      exact ⟨by simpa [List.getD_cons_succ] using hr.1,
        by simpa [List.drop_succ_cons] using hr.2⟩

theorem getD_mem {α : Type} (l : List α) (i : Nat) (d : α) (h : i < l.length) :
    l.getD i d ∈ l := by
  induction l generalizing i with
  | nil => simp at h
  | cons x xs ih =>
    cases i with
    | zero => simp
    | succ j =>
      simp only [List.getD_cons_succ]
      exact List.mem_cons_of_mem _ (ih j (by simpa using h))

theorem PVal_set_handle (v : FVal) (s : String) :
    PVal.set (.handle v) s = (.handle (v.set s).1, (v.set s).2) := rfl

/-- The `SetArgs` token loop, fully characterised on a well-formed state: all
slots below the declared count hold bonds with pairwise distinct names whose
handles are registered; every token is non-empty and every effective `Set`
succeeds.  Then the loop succeeds, slot `j`'s handle ends at the result of
setting its effective token, and every other name is untouched. -/
theorem saLoop_assign (argBonds : List (Option FlagBond)) (bond : Nat → FlagBond)
    (vs : Nat → FVal) (allArgs : List String)
    (hsome : ∀ j, j < argBonds.length → argBonds.getD j none = some (bond j))
    (hlen : argBonds.length ≤ allArgs.length)
    (hpair : ∀ j k2, j < argBonds.length → k2 < argBonds.length → j ≠ k2 →
      (bond j).name ≠ (bond k2).name)
    (hne : ∀ t ∈ allArgs, t ≠ "")
    (hset : ∀ j, j < argBonds.length →
      ((vs j).set (effArg argBonds.length vs allArgs j)).2 = none) :
    ∀ (rest : List String) (i : Nat) (fl : List (String × PVal)),
      rest = allArgs.drop i →
      (∀ j, i ≤ j → j < argBonds.length →
        lookupFlag fl (bond j).name = some (.handle (vs j))) →
      ((saLoop argBonds allArgs i rest fl).2 = none ∧
       (∀ j, i ≤ j → j < argBonds.length →
         lookupFlag (saLoop argBonds allArgs i rest fl).1 (bond j).name =
           some (.handle ((vs j).set (effArg argBonds.length vs allArgs j)).1)) ∧
       (∀ nm, (∀ j, i ≤ j → j < argBonds.length → nm ≠ (bond j).name) →
         lookupFlag (saLoop argBonds allArgs i rest fl).1 nm = lookupFlag fl nm)) := by
  intro rest
  induction rest with
  | nil =>
    intro i fl hdrop hlook
    have hle : allArgs.length ≤ i := by
      have := hdrop.symm
      rw [List.drop_eq_nil_iff] at this
      exact this
    refine ⟨rfl, ?_, ?_⟩
    · intro j hij hjl
      omega
    · intro nm _
      rfl
  | cons arg rest2 ih =>
    intro i fl hdrop hlook
    have hdp := drop_parts allArgs "" i arg rest2 hdrop.symm
    by_cases hi : i < argBonds.length
    · have hs := hsome i hi
      have hl := hlook i (le_refl i) hi
      have hilt : i < allArgs.length := by omega
      have hanz : arg ≠ "" := by
        rw [← hdp.1]
        exact hne _ (getD_mem _ _ _ hilt)
      have hao : (if i = argBonds.length - 1 ∧ argBonds.length < allArgs.length ∧
          isSliceValue (.handle (vs i)) = true then
            String.intercalate "," (allArgs.drop i)
          else arg) = effArg argBonds.length vs allArgs i := by
        unfold effArg
        by_cases hc : i = argBonds.length - 1 ∧ argBonds.length < allArgs.length ∧
            isSliceValue (.handle (vs i)) = true
        · rw [if_pos hc, if_pos hc]
        · rw [if_neg hc, if_neg hc]
          exact hdp.1.symm
      have hstep : saLoop argBonds allArgs i (arg :: rest2) fl =
          saLoop argBonds allArgs (i + 1) rest2
            (updateFlag fl (bond i).name
              (.handle ((vs i).set (effArg argBonds.length vs allArgs i)).1)) := by
        simp only [saLoop]
        rw [if_pos hi, hs]
        simp only
        rw [hl]
        simp only
        rw [if_neg hanz, hao, PVal_set_handle]
        simp only
        rw [hset i hi]
      rw [hstep]
      set fl2 := updateFlag fl (bond i).name
        (.handle ((vs i).set (effArg argBonds.length vs allArgs i)).1) with hfl2
      have hlook2 : ∀ j, i + 1 ≤ j → j < argBonds.length →
          lookupFlag fl2 (bond j).name = some (.handle (vs j)) := by
        intro j hij hjl
        rw [hfl2, lookupFlag_update_other _ _ _ _
          (hpair j i hjl hi (by omega))]
        exact hlook j (by omega) hjl
      have hres := ih (i + 1) fl2 hdp.2.symm hlook2
      refine ⟨hres.1, ?_, ?_⟩
      · intro j hij hjl
        by_cases hji : i + 1 ≤ j
        · exact hres.2.1 j hji hjl
        · have hjeq : j = i := by omega
          subst hjeq
          rw [hres.2.2 (bond j).name
            (fun k2 hk1 hk2 => hpair j k2 hjl hk2 (by omega))]
          rw [hfl2]
          exact lookupFlag_update_self _ _ _ _ hl
      · intro nm hnm
        rw [hres.2.2 nm (fun j hj1 hj2 => hnm j (by omega) hj2)]
        rw [hfl2, lookupFlag_update_other _ _ _ _ (hnm i (le_refl i) hi)]
    · have hstep : saLoop argBonds allArgs i (arg :: rest2) fl =
          saLoop argBonds allArgs (i + 1) rest2 fl := by
        simp only [saLoop]
        rw [if_neg hi]
      rw [hstep]
      have hres := ih (i + 1) fl hdp.2.symm
        (fun j hij hjl => hlook j (by omega) hjl)
      refine ⟨hres.1, ?_, ?_⟩
      · intro j hij hjl
        omega
      · intro nm hnm
        exact hres.2.2 nm (fun j hj1 hj2 => hnm j (by omega) hj2)

/-! ## Post-bind state analysis -/

theorem lookupFlag_eq_none (fl : List (String × PVal)) (n : String)
    (h : ∀ e ∈ fl, e.1 ≠ n) : lookupFlag fl n = none := by
  induction fl with
  | nil => rfl
  | cons e rest ih =>
    simp only [lookupFlag, if_neg (h e (List.mem_cons_self _ _))]
    exact ih (fun e2 he2 => h e2 (List.mem_cons_of_mem _ he2))

theorem lookupFlag_map_entry_mem (l : List FlagBond) (fb : FlagBond)
    (hmem : fb ∈ l) (hnodup : (l.map (fun fb2 => fb2.name)).Nodup) :
    lookupFlag (l.map (fun fb2 => (fb2.name, PVal.handle fb2.value))) fb.name =
      some (.handle fb.value) := by
  induction l with
  | nil => cases hmem
  | cons fb0 rest ih =>
    simp only [List.map_cons, List.nodup_cons] at hnodup
    rcases List.mem_cons.mp hmem with rfl | hmem
    · simp [lookupFlag]
    · have hne : fb0.name ≠ fb.name := by
        intro he
        exact hnodup.1 (he ▸ List.mem_map.mpr ⟨fb, hmem, rfl⟩)
      simp only [List.map_cons, lookupFlag, if_neg hne]
      exact ih hmem hnodup.2

theorem bindArgsLoop_argf_length (n : Nat) (l : List FlagBond) :
    ∀ i cmd argf, ((bindArgsLoop n i l cmd argf).2.1).length = argf.length := by
  induction l with
  | nil =>
    intro i cmd argf
    rfl
  | cons fb rest ih =>
    intro i cmd argf
    rw [bindArgsLoop_cons]
    by_cases h0 : 0 ≤ fb.argOrder
    · rw [if_pos h0]
      by_cases h1 : (n : Int) ≤ fb.argOrder
      · rw [if_pos h1]
      · rw [if_neg h1]
        by_cases h2 : (argf.getD fb.argOrder.toNat none).isSome = true
        · rw [if_pos h2]
        · rw [if_neg h2, ih]
          exact List.length_set ..
    · rw [if_neg h0, ih]
      exact List.length_set ..

theorem bindArgsLoop_flags_success (n : Nat) (l : List FlagBond) :
    ∀ i cmd argf, (bindArgsLoop n i l cmd argf).2.2 = none →
      ((bindArgsLoop n i l cmd argf).1).flags =
        cmd.flags ++ l.map (fun fb => (fb.name, PVal.handle fb.value)) := by
  induction l with
  | nil =>
    intro i cmd argf _
    simp [bindArgsLoop_nil]
  | cons fb rest ih =>
    intro i cmd argf hsucc
    rw [bindArgsLoop_cons] at hsucc ⊢
    by_cases h0 : 0 ≤ fb.argOrder
    · rw [if_pos h0] at hsucc ⊢
      by_cases h1 : (n : Int) ≤ fb.argOrder
      · rw [if_pos h1] at hsucc
        cases hsucc
      · rw [if_neg h1] at hsucc ⊢
        by_cases h2 : (argf.getD fb.argOrder.toNat none).isSome = true
        · rw [if_pos h2] at hsucc
          cases hsucc
        · rw [if_neg h2] at hsucc ⊢
          rw [ih _ _ _ hsucc]
          simp [configureFlag]
    · rw [if_neg h0] at hsucc ⊢
      rw [ih _ _ _ hsucc]
      simp [configureFlag]

theorem bindGo_success_eq (cmd0 : Cmd) (flagList argFlags : List FlagBond)
    (v : Option Nat) (c2 : Cmd) (argf : List (Option FlagBond))
    (hm : checkMixed argFlags = none)
    (hres : bindArgsLoop argFlags.length 0 argFlags (configureCmd cmd0 flagList)
      (List.replicate argFlags.length none) = (c2, argf, none)) :
    bindGo cmd0 flagList argFlags v =
      (⟨c2.flags ++ [("$argset", PVal.argsetV argf)] ++ [("$input", PVal.inputV v)]⟩,
        none) := by
  simp only [bindGo, hm]
  rw [hres]

theorem orders_cover (os : List Int)
    (hrange : ∀ o ∈ os, 0 ≤ o ∧ o < (os.length : Int)) (hnd : os.Nodup) :
    ∀ j : Nat, j < os.length → (j : Int) ∈ os := by
  intro j hj
  have hsub : os.toFinset ⊆ Finset.Ico (0 : Int) os.length := by
    intro o ho
    rcases hrange o (List.mem_toFinset.mp ho) with ⟨h1, h2⟩
    exact Finset.mem_Ico.mpr ⟨h1, h2⟩
  have hcard1 : os.toFinset.card = os.length := List.toFinset_card_of_nodup hnd
  have hcard2 : (Finset.Ico (0 : Int) (os.length : Int)).card = os.length := by
    rw [Int.card_Ico]
    simp
  have heq : os.toFinset = Finset.Ico (0 : Int) os.length :=
    Finset.eq_of_subset_of_card_le hsub (by rw [hcard1, hcard2])
  have hjm : (j : Int) ∈ Finset.Ico (0 : Int) (os.length : Int) := by
    rw [Finset.mem_Ico]
    exact ⟨Int.ofNat_nonneg j, by exact_mod_cast hj⟩
  rw [← heq] at hjm
  exact List.mem_toFinset.mp hjm

/-- Lookups on the command state a successful bind leaves behind: the stored
arg set is found under `$argset`, and each bond's handle entry is found under
its name (given name independence). -/
theorem post_bind_lookups (flagList argFlags : List FlagBond) (v : Option Nat)
    (c2 : Cmd) (argf : List (Option FlagBond))
    (hm : checkMixed argFlags = none)
    (hres : bindArgsLoop argFlags.length 0 argFlags (configureCmd ⟨[]⟩ flagList)
      (List.replicate argFlags.length none) = (c2, argf, none))
    (hnames : (argFlags.map (fun fb => fb.name)).Nodup)
    (hsep : ∀ fb ∈ argFlags, (∀ fb2 ∈ flagList, fb.name ≠ fb2.name) ∧
      fb.name ≠ "$flagset" ∧ fb.name ≠ "$argset")
    (hflres : ∀ fb2 ∈ flagList, fb2.name ≠ "$argset") :
    lookupFlag (bindGo ⟨[]⟩ flagList argFlags v).1.flags "$argset" =
      some (.argsetV argf) ∧
    ∀ fb ∈ argFlags, lookupFlag (bindGo ⟨[]⟩ flagList argFlags v).1.flags fb.name =
      some (.handle fb.value) := by
  have hc2flags : c2.flags =
      (configureCmd ⟨[]⟩ flagList).flags ++
        argFlags.map (fun fb => (fb.name, PVal.handle fb.value)) := by
    have := bindArgsLoop_flags_success argFlags.length argFlags 0
      (configureCmd ⟨[]⟩ flagList) (List.replicate argFlags.length none)
      (by rw [hres])
    rw [hres] at this
    exact this
  have hcmd1 : (configureCmd (⟨[]⟩ : Cmd) flagList).flags =
      flagList.map (fun fb => (fb.name, PVal.handle fb.value)) ++
        [("$flagset", PVal.flagsetV (flagList.map (fun fb => (fb.name, fb))))] := by
    rw [configureCmd_flags]
    simp
  rw [bindGo_success_eq ⟨[]⟩ flagList argFlags v c2 argf hm hres]
  constructor
  · have hpre : lookupFlag c2.flags "$argset" = none := by
      apply lookupFlag_eq_none
      intro e he
      rw [hc2flags, hcmd1] at he
      simp only [List.append_assoc, List.mem_append] at he
      rcases he with he | he | he
      · rcases List.mem_map.mp he with ⟨fb2, hfb2, rfl⟩
        exact hflres fb2 hfb2
      · rcases List.mem_singleton.mp he with rfl
        simp
      · rcases List.mem_map.mp he with ⟨fb2, hfb2, rfl⟩
        exact (hsep fb2 hfb2).2.2
    simp only
    rw [List.append_assoc]
    rw [lookupFlag_append_none _ _ _ hpre]
    simp [lookupFlag]
  · intro fb hfb
    have hpre : lookupFlag
        (flagList.map (fun fb2 => (fb2.name, PVal.handle fb2.value)) ++
          [("$flagset", PVal.flagsetV (flagList.map (fun fb2 => (fb2.name, fb2))))])
        fb.name = none := by
      apply lookupFlag_eq_none
      intro e he
      simp only [List.mem_append] at he
      rcases he with he | he
      · rcases List.mem_map.mp he with ⟨fb2, hfb2, rfl⟩
        exact fun hx => (hsep fb hfb).1 fb2 hfb2 hx.symm
      · rcases List.mem_singleton.mp he with rfl
        exact fun hx => (hsep fb hfb).2.1 hx.symm
    simp only
    rw [hc2flags, hcmd1]
    rw [List.append_assoc, List.append_assoc]
    rw [lookupFlag_append_none _ _ _ hpre]
    rw [← List.append_assoc]
    apply lookupFlag_append_some
    apply lookupFlag_append_some
    exact lookupFlag_map_entry_mem argFlags fb hfb hnames

theorem setArgsGo_eq (cmd : Cmd) (args : List String) (argf : List (Option FlagBond))
    (h0 : 0 < args.length)
    (hl : lookupFlag cmd.flags "$argset" = some (.argsetV argf)) :
    setArgsGo cmd args = saLoop argf args 0 args cmd.flags := by
  simp only [setArgsGo, if_pos h0, hl]

/-- C1: with explicit positional orders forming a permutation of `0..N-1`,
bind succeeds, and applying N non-empty tokens assigns token `i` to the field
whose declared order equals `i`, regardless of the fields' declaration
order. -/
theorem c1_ordered_args_routing (flagList argFlags : List FlagBond) (v : Option Nat)
    (tokens : List String)
    (hord : ∀ fb ∈ argFlags, 0 ≤ fb.argOrder ∧ fb.argOrder < (argFlags.length : Int))
    (hnodup : (argFlags.map (fun fb => fb.argOrder)).Nodup)
    (hstr : ∀ fb ∈ argFlags, ∃ s, fb.value = FVal.str s)
    (hnames : (argFlags.map (fun fb => fb.name)).Nodup)
    (hsep : ∀ fb ∈ argFlags, (∀ fb2 ∈ flagList, fb.name ≠ fb2.name) ∧
      fb.name ≠ "$flagset" ∧ fb.name ≠ "$argset")
    (hflres : ∀ fb2 ∈ flagList, fb2.name ≠ "$argset")
    (htok : tokens.length = argFlags.length)
    (hne : ∀ t ∈ tokens, t ≠ "") :
    (bindGo ⟨[]⟩ flagList argFlags v).2 = none ∧
    (setArgsGo (bindGo ⟨[]⟩ flagList argFlags v).1 tokens).2 = none ∧
    (∀ i, i < argFlags.length → ∀ fb ∈ argFlags, fb.argOrder = (i : Int) →
      lookupFlag (setArgsGo (bindGo ⟨[]⟩ flagList argFlags v).1 tokens).1 fb.name =
        some (.handle (.str (tokens.getD i "")))) := by
  have hordall : ∀ fb ∈ argFlags, 0 ≤ fb.argOrder := fun fb h => (hord fb h).1
  have hm : checkMixed argFlags = none := by
    rw [checkMixed_eq_none_iff]
    exact Or.inr hordall
  rcases hres : bindArgsLoop argFlags.length 0 argFlags (configureCmd ⟨[]⟩ flagList)
      (List.replicate argFlags.length none) with ⟨c2, argf, err⟩
  have hiff := bindArgsLoop_ordered_iff argFlags.length argFlags hordall 0
    (configureCmd ⟨[]⟩ flagList) (List.replicate argFlags.length none) (by simp)
  rw [hres] at hiff
  have herr : err = none :=
    hiff.mpr ⟨fun fb h => (hord fb h).2, hnodup, fun fb _ => getD_replicate_none _ _⟩
  subst herr
  have hbind := bindGo_success_eq ⟨[]⟩ flagList argFlags v c2 argf hm hres
  have hlooks := post_bind_lookups flagList argFlags v c2 argf hm hres hnames hsep hflres
  have hbsucc : (bindGo ⟨[]⟩ flagList argFlags v).2 = none := by rw [hbind]
  by_cases hN : argFlags.length = 0
  · have hnolen : ¬ 0 < tokens.length := by omega
    refine ⟨hbsucc, ?_, ?_⟩
    · simp [setArgsGo, hnolen]
    · intro i hi
      omega
  · have hN0 : 0 < argFlags.length := Nat.pos_of_ne_zero hN
    have h0tok : 0 < tokens.length := by omega
    have hlen : argf.length = argFlags.length := by
      have hx := bindArgsLoop_argf_length argFlags.length argFlags 0
        (configureCmd ⟨[]⟩ flagList) (List.replicate argFlags.length none)
      rw [hres] at hx
      simpa using hx
    have hplaced : ∀ fb ∈ argFlags,
        argf.getD fb.argOrder.toNat none = some { fb with hidden := true } := by
      intro fb hfb
      have hx := bindArgsLoop_placed argFlags.length argFlags hordall 0
        (configureCmd ⟨[]⟩ flagList) (List.replicate argFlags.length none)
        (by simp) (by rw [hres]) fb hfb
      rw [hres] at hx
      exact hx
    have hcover : ∀ j, j < argFlags.length → ∃ fb ∈ argFlags, fb.argOrder = (j : Int) := by
      intro j hj
      have hr : ∀ o ∈ argFlags.map (fun fb => fb.argOrder),
          0 ≤ o ∧ o < (((argFlags.map (fun fb => fb.argOrder)).length : Int)) := by
        intro o ho
        rcases List.mem_map.mp ho with ⟨fb, hfb, rfl⟩
        simpa using hord fb hfb
      have hmem := orders_cover _ hr hnodup j (by simpa using hj)
      rcases List.mem_map.mp hmem with ⟨fb, hfb, heq⟩
      exact ⟨fb, hfb, heq⟩
    have hslot : ∀ j, j < argFlags.length → ∃ fb ∈ argFlags, fb.argOrder = (j : Int) ∧
        argf.getD j none = some { fb with hidden := true } := by
      intro j hj
      rcases hcover j hj with ⟨fb, hfb, horder⟩
      refine ⟨fb, hfb, horder, ?_⟩
      have hx := hplaced fb hfb
      have hidx : fb.argOrder.toNat = j := by
        rw [horder]
        rfl
      rw [hidx] at hx
      exact hx
    have hsome : ∀ j, j < argf.length →
        argf.getD j none = some ((argf.getD j none).getD default) := by
      intro j hj
      rcases hslot j (by omega) with ⟨fb, _, _, hgd⟩
      rw [hgd]
      rfl
    have hpair : ∀ j k2, j < argf.length → k2 < argf.length → j ≠ k2 →
        ((argf.getD j none).getD default).name ≠
          ((argf.getD k2 none).getD default).name := by
      intro j k2 hj hk hjk
      rcases hslot j (by omega) with ⟨fbj, hfbj, hOj, hgj⟩
      rcases hslot k2 (by omega) with ⟨fbk, hfbk, hOk, hgk⟩
      rw [hgj, hgk]
      intro hnm
      have hnm2 : fbj.name = fbk.name := hnm
      have hfe : fbj = fbk := List.inj_on_of_nodup_map hnames hfbj hfbk hnm2
      rw [hfe] at hOj
      rw [hOj] at hOk
      exact hjk (by exact_mod_cast hOk)
    have hsetok : ∀ j, j < argf.length →
        ((((argf.getD j none).getD default).value).set
          (effArg argf.length (fun j2 => ((argf.getD j2 none).getD default).value)
            tokens j)).2 = none := by
      intro j hj
      rcases hslot j (by omega) with ⟨fb, hfb, _, hgj⟩
      rcases hstr fb hfb with ⟨s, hsval⟩
      have hv : ((argf.getD j none).getD default).value = FVal.str s := by
        rw [hgj]
        exact hsval
      rw [hv]
      rfl
    have hlook0 : ∀ j, 0 ≤ j → j < argf.length →
        lookupFlag (bindGo ⟨[]⟩ flagList argFlags v).1.flags
          ((argf.getD j none).getD default).name =
          some (.handle ((argf.getD j none).getD default).value) := by
      intro j _ hj
      rcases hslot j (by omega) with ⟨fb, hfb, _, hgj⟩
      have hname : ((argf.getD j none).getD default).name = fb.name := by
        rw [hgj]
        rfl
      have hval : ((argf.getD j none).getD default).value = fb.value := by
        rw [hgj]
        rfl
      rw [hname, hval]
      exact hlooks.2 fb hfb
    have hassign := saLoop_assign argf (fun j => (argf.getD j none).getD default)
      (fun j => ((argf.getD j none).getD default).value) tokens hsome (by omega)
      hpair hne hsetok tokens 0 (bindGo ⟨[]⟩ flagList argFlags v).1.flags
      (by simp) hlook0
    have hsa : setArgsGo (bindGo ⟨[]⟩ flagList argFlags v).1 tokens =
        saLoop argf tokens 0 tokens (bindGo ⟨[]⟩ flagList argFlags v).1.flags :=
      setArgsGo_eq _ tokens argf h0tok hlooks.1
    refine ⟨hbsucc, ?_, ?_⟩
    · rw [hsa]
      exact hassign.1
    · intro i hi fb hfb horder
      rw [hsa]
      have hgi : argf.getD i none = some { fb with hidden := true } := by
        have hx := hplaced fb hfb
        have hidx : fb.argOrder.toNat = i := by
          rw [horder]
          rfl
        rw [hidx] at hx
        exact hx
      rcases hstr fb hfb with ⟨s, hsval⟩
      have heff : effArg argf.length
          (fun j2 => ((argf.getD j2 none).getD default).value) tokens i =
          tokens.getD i "" := by
        unfold effArg
        rw [if_neg]
        intro hc
        omega
      have hfinal := hassign.2.1 i (by omega) (by omega)
      rw [heff] at hfinal
      have hfinal2 : lookupFlag (saLoop argf tokens 0 tokens
          (bindGo ⟨[]⟩ flagList argFlags v).1.flags).1
          ((argf.getD i none).getD default).name =
          some (.handle ((((argf.getD i none).getD default).value).set
            (tokens.getD i "")).1) := hfinal
      have hv : ((argf.getD i none).getD default).value = FVal.str s := by
        rw [hgi]
        exact hsval
      have hname : ((argf.getD i none).getD default).name = fb.name := by
        rw [hgi]
        rfl
      rw [hname, hv] at hfinal2
      exact hfinal2

/-- Witness for C1: fields declared `ID` (order 1) before `Token` (order 0),
tokens `["one", "two"]`; token 0 goes to `Token`, token 1 to `ID`. -/
theorem c1_ordered_args_routing_witness :
    (bindGo ⟨[]⟩ [] [wID, wTok] none).2 = none ∧
    (setArgsGo (bindGo ⟨[]⟩ [] [wID, wTok] none).1 ["one", "two"]).2 = none ∧
    (∀ i, i < ([wID, wTok] : List FlagBond).length → ∀ fb ∈ [wID, wTok],
      fb.argOrder = (i : Int) →
      lookupFlag (setArgsGo (bindGo ⟨[]⟩ [] [wID, wTok] none).1 ["one", "two"]).1
        fb.name = some (.handle (.str (["one", "two"].getD i "")))) :=
  c1_ordered_args_routing [] [wID, wTok] none ["one", "two"]
    (by decide) (by decide)
    (by
      intro fb hfb
      rcases List.mem_cons.mp hfb with rfl | hfb
      · exact ⟨"", rfl⟩
      · rcases List.mem_singleton.mp hfb with rfl
        exact ⟨"", rfl⟩)
    (by decide) (by decide) (by decide) (by decide) (by decide)

theorem getD_eq_get {α : Type} (l : List α) (d : α) (n : Nat) (h : n < l.length) :
    l.getD n d = l.get ⟨n, h⟩ := by
  induction l generalizing n with
  | nil => simp at h
  | cons x xs ih =>
    cases n with
    | zero => rfl
    | succ m =>
      simp only [List.getD_cons_succ, List.get_cons_succ]
      exact ih m (by simpa using h)

theorem getD_name_ne_of_nodup (l : List FlagBond)
    (hnames : (l.map (fun fb => fb.name)).Nodup)
    (j k : Nat) (hj : j < l.length) (hk : k < l.length) (hjk : j ≠ k) :
    (l.getD j default).name ≠ (l.getD k default).name := by
  intro he
  have hval : l.getD j default = l.getD k default :=
    List.inj_on_of_nodup_map hnames (getD_mem l j default hj) (getD_mem l k default hk) he
  have hnd : l.Nodup := List.Nodup.of_map _ hnames
  rw [getD_eq_get l default j hj, getD_eq_get l default k hk] at hval
  have hfin := (List.Nodup.get_inj_iff hnd).mp hval
  exact hjk (by simpa using congrArg Fin.val hfin)

theorem getD_append_left {α : Type} (l1 l2 : List α) (d : α) (j : Nat)
    (h : j < l1.length) : (l1 ++ l2).getD j d = l1.getD j d := by
  induction l1 generalizing j with
  | nil => simp at h
  | cons x xs ih =>
    cases j with
    | zero => rfl
    | succ m =>
      simp only [List.cons_append, List.getD_cons_succ]
      exact ih m (by simpa using h)

theorem getD_append_self {α : Type} (l1 : List α) (x : α) (d : α) :
    (l1 ++ [x]).getD l1.length d = x := by
  induction l1 with
  | nil => rfl
  | cons y ys ih =>
    simp [List.getD_cons_succ, ih]

/-- C4: for a bound command whose last positional argument is slice-typed,
applying more non-empty tokens than declared slots fills the fixed slots
one-to-one and joins all tokens from the last slot onward with commas into a
single input parsed as the slice (so element `i` of the comma-split of the
joined input is element `i` of the resulting slice). -/
theorem c4_variadic_tail (flagList fixed : List FlagBond) (lastB : FlagBond)
    (v : Option Nat) (tokens : List String)
    (hun : ∀ fb ∈ fixed ++ [lastB], fb.argOrder < 0)
    (hstr : ∀ fb ∈ fixed, ∃ s, fb.value = FVal.str s)
    (hslice : ∃ xs, lastB.value = FVal.strSlice false xs)
    (hnames : ((fixed ++ [lastB]).map (fun fb => fb.name)).Nodup)
    (hsep : ∀ fb ∈ fixed ++ [lastB], (∀ fb2 ∈ flagList, fb.name ≠ fb2.name) ∧
      fb.name ≠ "$flagset" ∧ fb.name ≠ "$argset")
    (hflres : ∀ fb2 ∈ flagList, fb2.name ≠ "$argset")
    (htok : (fixed ++ [lastB]).length < tokens.length)
    (hne : ∀ t ∈ tokens, t ≠ "") :
    (bindGo ⟨[]⟩ flagList (fixed ++ [lastB]) v).2 = none ∧
    (setArgsGo (bindGo ⟨[]⟩ flagList (fixed ++ [lastB]) v).1 tokens).2 = none ∧
    (∀ j, j < fixed.length →
      lookupFlag (setArgsGo (bindGo ⟨[]⟩ flagList (fixed ++ [lastB]) v).1 tokens).1
        (fixed.getD j default).name =
        some (.handle (.str (tokens.getD j "")))) ∧
    lookupFlag (setArgsGo (bindGo ⟨[]⟩ flagList (fixed ++ [lastB]) v).1 tokens).1
      lastB.name =
      some (.handle (.strSlice true
        (splitCSV (String.intercalate "," (tokens.drop fixed.length))))) := by
  set argFlags := fixed ++ [lastB] with hargdef
  have hm : checkMixed argFlags = none := by
    rw [checkMixed_eq_none_iff]
    exact Or.inl hun
  rcases hres : bindArgsLoop argFlags.length 0 argFlags (configureCmd ⟨[]⟩ flagList)
      (List.replicate argFlags.length none) with ⟨c2, argf, err⟩
  have herr : err = none := by
    have hx := bindArgsLoop_unordered_none argFlags.length argFlags hun 0
      (configureCmd ⟨[]⟩ flagList) (List.replicate argFlags.length none)
    rw [hres] at hx
    exact hx
  subst herr
  have hbind := bindGo_success_eq ⟨[]⟩ flagList argFlags v c2 argf hm hres
  have hlooks := post_bind_lookups flagList argFlags v c2 argf hm hres hnames hsep hflres
  have hbsucc : (bindGo ⟨[]⟩ flagList argFlags v).2 = none := by rw [hbind]
  have hNlen : argFlags.length = fixed.length + 1 := by
    rw [hargdef]
    simp
  have h0tok : 0 < tokens.length := by omega
  have hlen : argf.length = argFlags.length := by
    have hx := bindArgsLoop_argf_length argFlags.length argFlags 0
      (configureCmd ⟨[]⟩ flagList) (List.replicate argFlags.length none)
    rw [hres] at hx
    simpa using hx
  have hslot : ∀ j, j < argFlags.length →
      argf.getD j none = some { argFlags.getD j default with hidden := true } := by
    intro j hj
    have hx := bindArgsLoop_unordered_getD argFlags.length argFlags hun 0
      (configureCmd ⟨[]⟩ flagList) (List.replicate argFlags.length none) j
      (by simp) (by simpa using hj)
    rw [hres] at hx
    have hx2 : argf.getD j none =
        (if 0 ≤ j ∧ j < 0 + argFlags.length then
          some { argFlags.getD (j - 0) default with hidden := true }
        else (List.replicate argFlags.length (none : Option FlagBond)).getD j none) := hx
    rw [hx2, if_pos (by omega), Nat.sub_zero]
  have hsome : ∀ j, j < argf.length →
      argf.getD j none = some ((argf.getD j none).getD default) := by
    intro j hj
    rw [hslot j (by omega)]
    rfl
  have hbondval : ∀ j, j < argFlags.length →
      ((argf.getD j none).getD default).value = (argFlags.getD j default).value := by
    intro j hj
    rw [hslot j hj]
    rfl
  have hbondname : ∀ j, j < argFlags.length →
      ((argf.getD j none).getD default).name = (argFlags.getD j default).name := by
    intro j hj
    rw [hslot j hj]
    rfl
  have hpair : ∀ j k2, j < argf.length → k2 < argf.length → j ≠ k2 →
      ((argf.getD j none).getD default).name ≠
        ((argf.getD k2 none).getD default).name := by
    intro j k2 hj hk hjk
    rw [hbondname j (by omega), hbondname k2 (by omega)]
    exact getD_name_ne_of_nodup argFlags hnames j k2 (by omega) (by omega) hjk
  have hvfix : ∀ j, j < fixed.length →
      (argFlags.getD j default).value = (fixed.getD j default).value := by
    intro j hj
    rw [hargdef, getD_append_left _ _ _ _ hj]
  have hvlast : argFlags.getD fixed.length default = lastB := by
    rw [hargdef]
    exact getD_append_self _ _ _
  rcases hslice with ⟨xs0, hxs0⟩
  have hsetok : ∀ j, j < argf.length →
      ((((argf.getD j none).getD default).value).set
        (effArg argf.length (fun j2 => ((argf.getD j2 none).getD default).value)
          tokens j)).2 = none := by
    intro j hj
    rw [hbondval j (by omega)]
    by_cases hjf : j < fixed.length
    · rcases hstr (fixed.getD j default) (getD_mem _ _ _ hjf) with ⟨s, hsval⟩
      rw [hvfix j hjf, hsval]
      rfl
    · have hjl : j = fixed.length := by omega
      rw [hjl, hvlast, hxs0]
      rfl
  have hlook0 : ∀ j, 0 ≤ j → j < argf.length →
      lookupFlag (bindGo ⟨[]⟩ flagList argFlags v).1.flags
        ((argf.getD j none).getD default).name =
        some (.handle ((argf.getD j none).getD default).value) := by
    intro j _ hj
    rw [hbondname j (by omega), hbondval j (by omega)]
    exact hlooks.2 _ (getD_mem _ _ _ (by omega))
  have hassign := saLoop_assign argf (fun j => (argf.getD j none).getD default)
    (fun j => ((argf.getD j none).getD default).value) tokens hsome (by omega)
    hpair hne hsetok tokens 0 (bindGo ⟨[]⟩ flagList argFlags v).1.flags
    (by simp) hlook0
  have hsa : setArgsGo (bindGo ⟨[]⟩ flagList argFlags v).1 tokens =
      saLoop argf tokens 0 tokens (bindGo ⟨[]⟩ flagList argFlags v).1.flags :=
    setArgsGo_eq _ tokens argf h0tok hlooks.1
  refine ⟨hbsucc, ?_, ?_, ?_⟩
  · rw [hsa]
    exact hassign.1
  · intro j hjf
    rw [hsa]
    have hj : j < argf.length := by omega
    have heff : effArg argf.length
        (fun j2 => ((argf.getD j2 none).getD default).value) tokens j =
        tokens.getD j "" := by
      unfold effArg
      rw [if_neg]
      intro hc
      omega
    have hfinal := hassign.2.1 j (by omega) hj
    rw [heff] at hfinal
    have hfinal2 : lookupFlag (saLoop argf tokens 0 tokens
        (bindGo ⟨[]⟩ flagList argFlags v).1.flags).1
        ((argf.getD j none).getD default).name =
        some (.handle ((((argf.getD j none).getD default).value).set
          (tokens.getD j "")).1) := hfinal
    rcases hstr (fixed.getD j default) (getD_mem _ _ _ hjf) with ⟨s, hsval⟩
    have hv : ((argf.getD j none).getD default).value = FVal.str s := by
      rw [hbondval j (by omega), hvfix j hjf]
      exact hsval
    have hname : ((argf.getD j none).getD default).name =
        (fixed.getD j default).name := by
      rw [hbondname j (by omega), hargdef, getD_append_left _ _ _ _ hjf]
    rw [hname, hv] at hfinal2
    exact hfinal2
  · rw [hsa]
    have hj : fixed.length < argf.length := by omega
    have hvlastv : ((argf.getD fixed.length none).getD default).value =
        FVal.strSlice false xs0 := by
      rw [hbondval fixed.length (by omega), hvlast]
      exact hxs0
    have heff : effArg argf.length
        (fun j2 => ((argf.getD j2 none).getD default).value) tokens fixed.length =
        String.intercalate "," (tokens.drop fixed.length) := by
      unfold effArg
      rw [if_pos]
      refine ⟨by omega, by omega, ?_⟩
      have hx : ((fun j2 => ((argf.getD j2 none).getD default).value)
          fixed.length) = FVal.strSlice false xs0 := hvlastv
      rw [hx]
      rfl
    have hfinal := hassign.2.1 fixed.length (by omega) hj
    rw [heff] at hfinal
    have hfinal2 : lookupFlag (saLoop argf tokens 0 tokens
        (bindGo ⟨[]⟩ flagList argFlags v).1.flags).1
        ((argf.getD fixed.length none).getD default).name =
        some (.handle ((((argf.getD fixed.length none).getD default).value).set
          (String.intercalate "," (tokens.drop fixed.length))).1) := hfinal
    have hname : ((argf.getD fixed.length none).getD default).name = lastB.name := by
      rw [hbondname fixed.length (by omega), hvlast]
    rw [hname, hvlastv] at hfinal2
    exact hfinal2

/-- Witness for C4: bonds `[Token, ID, Hashes]` (Hashes slice-typed), tokens
`["a", "b", "c", "d", "e"]`: Token gets "a", ID gets "b", Hashes becomes
`["c", "d", "e"]`. -/
theorem c4_variadic_tail_witness :
    (bindGo ⟨[]⟩ [] ([wTokU, wIDU] ++ [wHashesU]) none).2 = none ∧
    (setArgsGo (bindGo ⟨[]⟩ [] ([wTokU, wIDU] ++ [wHashesU]) none).1
      ["a", "b", "c", "d", "e"]).2 = none ∧
    (∀ j, j < ([wTokU, wIDU] : List FlagBond).length →
      lookupFlag (setArgsGo (bindGo ⟨[]⟩ [] ([wTokU, wIDU] ++ [wHashesU]) none).1
        ["a", "b", "c", "d", "e"]).1 (([wTokU, wIDU] : List FlagBond).getD j default).name =
        some (.handle (.str (["a", "b", "c", "d", "e"].getD j "")))) ∧
    lookupFlag (setArgsGo (bindGo ⟨[]⟩ [] ([wTokU, wIDU] ++ [wHashesU]) none).1
      ["a", "b", "c", "d", "e"]).1 wHashesU.name =
      some (.handle (.strSlice true
        (splitCSV (String.intercalate ","
          (["a", "b", "c", "d", "e"].drop ([wTokU, wIDU] : List FlagBond).length))))) :=
  c4_variadic_tail [] [wTokU, wIDU] wHashesU none ["a", "b", "c", "d", "e"]
    (by decide)
    (by
      intro fb hfb
      rcases List.mem_cons.mp hfb with rfl | hfb
      · exact ⟨"", rfl⟩
      · rcases List.mem_singleton.mp hfb with rfl
        exact ⟨"", rfl⟩)
    ⟨[], rfl⟩
    (by decide) (by decide) (by decide) (by decide) (by decide)

theorem bindArgsLoop_flags_names (n : Nat) (l : List FlagBond) :
    ∀ i cmd argf, ∃ entries : List (String × PVal),
      ((bindArgsLoop n i l cmd argf).1).flags = cmd.flags ++ entries ∧
      ∀ e ∈ entries, ∃ fb ∈ l, e.1 = fb.name := by
  induction l with
  | nil =>
    intro i cmd argf
    exact ⟨[], by simp [bindArgsLoop_nil], by simp⟩
  | cons fb rest ih =>
    intro i cmd argf
    rw [bindArgsLoop_cons]
    by_cases h0 : 0 ≤ fb.argOrder
    · rw [if_pos h0]
      by_cases h1 : (n : Int) ≤ fb.argOrder
      · rw [if_pos h1]
        refine ⟨[(fb.name, PVal.handle fb.value)], by simp [configureFlag], ?_⟩
        intro e he
        rcases List.mem_singleton.mp he with rfl
        exact ⟨fb, List.mem_cons_self _ _, rfl⟩
      · rw [if_neg h1]
        by_cases h2 : (argf.getD fb.argOrder.toNat none).isSome = true
        · rw [if_pos h2]
          refine ⟨[(fb.name, PVal.handle fb.value)], by simp [configureFlag], ?_⟩
          intro e he
          rcases List.mem_singleton.mp he with rfl
          exact ⟨fb, List.mem_cons_self _ _, rfl⟩
        · rw [if_neg h2]
          rcases ih (i + 1) (configureFlag cmd { fb with hidden := true })
            (argf.set fb.argOrder.toNat (some { fb with hidden := true })) with
            ⟨entries, he1, he2⟩
          refine ⟨(fb.name, PVal.handle fb.value) :: entries, ?_, ?_⟩
          · rw [he1]
            simp [configureFlag]
          · intro e he
            rcases List.mem_cons.mp he with rfl | he
            · exact ⟨fb, List.mem_cons_self _ _, rfl⟩
            · rcases he2 e he with ⟨fb2, hm, hn⟩
              exact ⟨fb2, List.mem_cons_of_mem _ hm, hn⟩
    · rw [if_neg h0]
      rcases ih (i + 1) (configureFlag cmd { fb with hidden := true })
        (argf.set i (some { fb with hidden := true })) with ⟨entries, he1, he2⟩
      refine ⟨(fb.name, PVal.handle fb.value) :: entries, ?_, ?_⟩
      · rw [he1]
        simp [configureFlag]
      · intro e he
        rcases List.mem_cons.mp he with rfl | he
        · exact ⟨fb, List.mem_cons_self _ _, rfl⟩
        · rcases he2 e he with ⟨fb2, hm, hn⟩
          exact ⟨fb2, List.mem_cons_of_mem _ hm, hn⟩

/-- C5 amended: when bind fails, the argument set and the input are never
installed on the command (their lookups are unchanged); the flag set,
however, may already hold the flags and the `$flagset` registry entry that
were configured before the error (see the counterexample). -/
theorem c5_amended_failed_bind (cmd0 : Cmd) (flagList argFlags : List FlagBond)
    (v : Option Nat)
    (hnores : ∀ fb ∈ flagList ++ argFlags, fb.name ≠ "$argset" ∧ fb.name ≠ "$input")
    (herr : (bindGo cmd0 flagList argFlags v).2.isSome = true) :
    lookupFlag (bindGo cmd0 flagList argFlags v).1.flags "$argset" =
      lookupFlag cmd0.flags "$argset" ∧
    lookupFlag (bindGo cmd0 flagList argFlags v).1.flags "$input" =
      lookupFlag cmd0.flags "$input" := by
  have hconf : ∀ nm : String, nm = "$argset" ∨ nm = "$input" →
      ∀ entries : List (String × PVal),
      (∀ e ∈ entries, ∃ fb ∈ argFlags, e.1 = fb.name) →
      lookupFlag ((configureCmd cmd0 flagList).flags ++ entries) nm =
        lookupFlag cmd0.flags nm := by
    intro nm hnm entries hentries
    rw [configureCmd_flags, List.append_assoc, List.append_assoc]
    apply lookupFlag_append_not_named
    intro e he
    simp only [List.mem_append] at he
    rcases he with he | he | he
    · rcases List.mem_map.mp he with ⟨fb2, hfb2, rfl⟩
      have := hnores fb2 (List.mem_append.mpr (Or.inl hfb2))
      rcases hnm with rfl | rfl
      · exact this.1
      · exact this.2
    · rcases List.mem_singleton.mp he with rfl
      rcases hnm with rfl | rfl <;> simp
    · rcases hentries e he with ⟨fb2, hfb2, hn⟩
      rw [hn]
      have := hnores fb2 (List.mem_append.mpr (Or.inr hfb2))
      rcases hnm with rfl | rfl
      · exact this.1
      · exact this.2
  simp only [bindGo] at herr ⊢
  cases hm : checkMixed argFlags with
  | some e =>
    simp only [hm]
    have h1 := hconf "$argset" (Or.inl rfl) [] (by simp)
    have h2 := hconf "$input" (Or.inr rfl) [] (by simp)
    rw [List.append_nil] at h1 h2
    exact ⟨h1, h2⟩
  | none =>
    simp only [hm] at herr ⊢
    rcases hres : bindArgsLoop argFlags.length 0 argFlags (configureCmd cmd0 flagList)
        (List.replicate argFlags.length none) with ⟨c2, argf, err⟩
    cases err with
    | none =>
      rw [hres] at herr
      simp at herr
    | some e =>
      rcases bindArgsLoop_flags_names argFlags.length argFlags 0
        (configureCmd cmd0 flagList) (List.replicate argFlags.length none) with
        ⟨entries, he1, he2⟩
      rw [hres] at he1
      have hc2 : c2.flags = (configureCmd cmd0 flagList).flags ++ entries := he1
      constructor
      · show lookupFlag c2.flags "$argset" = lookupFlag cmd0.flags "$argset"
        rw [hc2]
        exact hconf "$argset" (Or.inl rfl) entries he2
      · show lookupFlag c2.flags "$input" = lookupFlag cmd0.flags "$input"
        rw [hc2]
        exact hconf "$input" (Or.inr rfl) entries he2

/-- Witness for the amended C5: the mixing counterexample input; the failed
bind leaves the `$argset` and `$input` lookups unchanged (both absent). -/
theorem c5_amended_failed_bind_witness :
    lookupFlag (bindGo ⟨[]⟩ [] [mixA, mixB] none).1.flags "$argset" =
      lookupFlag ([] : List (String × PVal)) "$argset" ∧
    lookupFlag (bindGo ⟨[]⟩ [] [mixA, mixB] none).1.flags "$input" =
      lookupFlag ([] : List (String × PVal)) "$input" :=
  c5_amended_failed_bind ⟨[]⟩ [] [mixA, mixB] none (by decide) (by decide)

end Bflags
